import Mathlib

/-!
Verification of the core of a Rust path tracer (raytracing-weekend).

The embedding models the `f32` scalar exactly: a value is either a finite
rational, `+inf`, `-inf` or `NaN`, with the IEEE-754 special-value rules for
arithmetic, comparison, `min`/`max`, division by zero and square root of a
negative number.  Rounding is idealised away (finite arithmetic is exact
rational arithmetic) and `f32::sqrt` is modelled by a computable rational
square root that is exact on perfect squares; all concrete evaluations below
use only values on which the model and `f32` agree exactly.
-/

set_option allowUnsafeReducibility true in
attribute [semireducible] Rat.add Rat.mul Rat.sub Rat.div Rat.neg Rat.inv Rat.blt

set_option maxRecDepth 4000

namespace RT

/-- The scalar type modelling `f32`: finite rationals plus the IEEE special
values `+inf`, `-inf` and `NaN` (there is no negative zero; a literal `0.0`
is the rational `0`, matching `+0.0`). -/
inductive F where
  | fin (q : ℚ)
  | pinf
  | ninf
  | nan
deriving DecidableEq

namespace F

/-- IEEE negation. -/
def neg : F → F
  | fin q => fin (-q)
  | pinf => ninf
  | ninf => pinf
  | nan => nan

/-- IEEE addition (exact on finite values; `+inf + -inf = NaN`). -/
def add : F → F → F
  | nan, _ => nan
  | fin _, nan => nan
  | pinf, nan => nan
  | ninf, nan => nan
  | fin a, fin b => fin (a + b)
  | fin _, pinf => pinf
  | fin _, ninf => ninf
  | pinf, fin _ => pinf
  | ninf, fin _ => ninf
  | pinf, pinf => pinf
  | ninf, ninf => ninf
  | pinf, ninf => nan
  | ninf, pinf => nan

/-- IEEE subtraction, `a - b = a + (-b)`. -/
def sub (a b : F) : F := add a (neg b)

/-- IEEE multiplication (`0 * inf = NaN`). -/
def mul : F → F → F
  | nan, _ => nan
  | fin _, nan => nan
  | pinf, nan => nan
  | ninf, nan => nan
  | fin a, fin b => fin (a * b)
  | fin a, pinf => if 0 < a then pinf else if a < 0 then ninf else nan
  | fin a, ninf => if 0 < a then ninf else if a < 0 then pinf else nan
  | pinf, fin b => if 0 < b then pinf else if b < 0 then ninf else nan
  | ninf, fin b => if 0 < b then ninf else if b < 0 then pinf else nan
  | pinf, pinf => pinf
  | pinf, ninf => ninf
  | ninf, pinf => ninf
  | ninf, ninf => pinf

/-- IEEE division: a nonzero finite value divided by zero gives a signed
infinity (zero is `+0.0`), `0/0 = NaN`, `inf/inf = NaN`, `x/inf = 0`. -/
def div : F → F → F
  | nan, _ => nan
  | fin _, nan => nan
  | pinf, nan => nan
  | ninf, nan => nan
  | fin a, fin b =>
      if b = 0 then (if 0 < a then pinf else if a < 0 then ninf else nan)
      else fin (a / b)
  | fin _, pinf => fin 0
  | fin _, ninf => fin 0
  | pinf, fin b => if b < 0 then ninf else pinf
  | ninf, fin b => if b < 0 then pinf else ninf
  | pinf, pinf => nan
  | pinf, ninf => nan
  | ninf, pinf => nan
  | ninf, ninf => nan

/-- IEEE `<`: any comparison with `NaN` is false. -/
def lt : F → F → Bool
  | nan, _ => false
  | fin _, nan => false
  | pinf, nan => false
  | ninf, nan => false
  | fin a, fin b => decide (a < b)
  | fin _, pinf => true
  | fin _, ninf => false
  | pinf, _ => false
  | ninf, fin _ => true
  | ninf, pinf => true
  | ninf, ninf => false

/-- IEEE `≤`: any comparison with `NaN` is false. -/
def le : F → F → Bool
  | nan, _ => false
  | fin _, nan => false
  | pinf, nan => false
  | ninf, nan => false
  | fin a, fin b => decide (a ≤ b)
  | fin _, pinf => true
  | fin _, ninf => false
  | pinf, pinf => true
  | pinf, fin _ => false
  | pinf, ninf => false
  | ninf, _ => true

/-- Rust `f32::min`: if one argument is NaN the other is returned. -/
def fmin : F → F → F
  | nan, b => b
  | fin a, nan => fin a
  | pinf, nan => pinf
  | ninf, nan => ninf
  | a, b => if le a b then a else b

/-- Rust `f32::max`: if one argument is NaN the other is returned. -/
def fmax : F → F → F
  | nan, b => b
  | fin a, nan => fin a
  | pinf, nan => pinf
  | ninf, nan => ninf
  | a, b => if le a b then b else a

/-- IEEE absolute value. -/
def abs : F → F
  | fin q => fin |q|
  | pinf => pinf
  | ninf => pinf
  | nan => nan

/-- Newton iteration for the integer square root, structurally recursive on
a fuel argument so that it reduces inside the kernel. -/
def isqrtIter : ℕ → ℕ → ℕ → ℕ
  | 0, _, x => x
  | fuel + 1, n, x =>
      let xn := (x + n / x) / 2
      if xn < x then isqrtIter fuel n xn else x

/-- Integer (floor) square root. -/
def isqrt (n : ℕ) : ℕ := if n ≤ 1 then n else isqrtIter n n n

/-- A computable rational square root used to model `f32::sqrt` on
non-negative finite values: exact whenever numerator and denominator are
perfect squares (every concrete input below is), an approximation
otherwise (modelling rounding). -/
def ratSqrt (q : ℚ) : ℚ := (isqrt q.num.natAbs : ℚ) / (isqrt q.den : ℚ)

/-- IEEE square root: `sqrt NaN = NaN`, `sqrt (+inf) = +inf`, the square
root of any negative value is `NaN`. -/
def sqrt : F → F
  | nan => nan
  | pinf => pinf
  | ninf => nan
  | fin q => if q < 0 then nan else fin (ratSqrt q)

/-- `x.powf 5.0` and friends: `powf` at a non-negative integer exponent
(`powf x 0 = 1` even for NaN, as IEEE requires). -/
def powi : F → ℕ → F
  | _, 0 => fin 1
  | x, n + 1 => mul x (powi x n)

/-- Finiteness test (true exactly on `fin` values). -/
def isFinite : F → Bool
  | fin _ => true
  | _ => false

end F

/-- `src/vec3`: the 3-component vector, used as point, direction and color. -/
structure Vec3 where
  x : F
  y : F
  z : F
deriving DecidableEq

namespace Vec3

def zero : Vec3 := ⟨F.fin 0, F.fin 0, F.fin 0⟩

/-- `Vec3::new`. -/
def new (x y z : F) : Vec3 := ⟨x, y, z⟩

/-- `impl Add for Vec3`. -/
def addv (u v : Vec3) : Vec3 := ⟨F.add u.x v.x, F.add u.y v.y, F.add u.z v.z⟩

/-- `impl Sub for Vec3`. -/
def subv (u v : Vec3) : Vec3 := ⟨F.sub u.x v.x, F.sub u.y v.y, F.sub u.z v.z⟩

/-- `impl Neg for Vec3`. -/
def negv (u : Vec3) : Vec3 := ⟨F.neg u.x, F.neg u.y, F.neg u.z⟩

/-- `impl Mul<Vec3> for f32` (scalar * vector). -/
def smul (t : F) (v : Vec3) : Vec3 := ⟨F.mul t v.x, F.mul t v.y, F.mul t v.z⟩

/-- `impl Mul<Vec3> for Vec3` (component-wise product, used for colors). -/
def mulv (u v : Vec3) : Vec3 := ⟨F.mul u.x v.x, F.mul u.y v.y, F.mul u.z v.z⟩

/-- `impl Div<f32> for Vec3`. -/
def divs (v : Vec3) (t : F) : Vec3 := ⟨F.div v.x t, F.div v.y t, F.div v.z t⟩

/-- `impl Index<usize> for Vec3` (axis 0, 1 or 2; any other index panics). -/
def idx (v : Vec3) : Fin 3 → F
  | ⟨0, _⟩ => v.x
  | ⟨1, _⟩ => v.y
  | ⟨2, _⟩ => v.z

/-- `Vec3::dot`. -/
def dot (u v : Vec3) : F :=
  F.add (F.add (F.mul u.x v.x) (F.mul u.y v.y)) (F.mul u.z v.z)

/-- `Vec3::length_squared`. -/
def length_squared (v : Vec3) : F :=
  F.add (F.add (F.mul v.x v.x) (F.mul v.y v.y)) (F.mul v.z v.z)

/-- `Vec3::length`. -/
def length (v : Vec3) : F := F.sqrt (length_squared v)

/-- `Vec3::unit_vector`. -/
def unit_vector (v : Vec3) : Vec3 := divs v (length v)

/-- `f32::MIN_POSITIVE`, the smallest positive normal `f32`, i.e.
`2 ^ (-126)` written as an explicit literal. -/
def minPositive : ℚ := 1 / 85070591730234615865843651857942052864

/-- `Vec3::near_zero`: every component has absolute value below
`f32::MIN_POSITIVE`. -/
def near_zero (v : Vec3) : Bool :=
  F.lt (F.abs v.x) (F.fin minPositive) &&
  F.lt (F.abs v.y) (F.fin minPositive) &&
  F.lt (F.abs v.z) (F.fin minPositive)

/-- `Vec3::reflect`: `v - 2*dot(v,n)*n`. -/
def reflect (v n : Vec3) : Vec3 :=
  subv v (smul (F.mul (F.fin 2) (dot v n)) n)

/-- `Vec3::refract`. -/
def refract (uv n : Vec3) (etai_over_etat : F) : Vec3 :=
  let cos_theta := F.fmin (dot (negv uv) n) (F.fin 1)
  let r_out_perp := smul etai_over_etat (addv uv (smul cos_theta n))
  let r_out_parallel :=
    smul (F.neg (F.sqrt (F.abs (F.sub (F.fin 1) (length_squared r_out_perp))))) n
  addv r_out_perp r_out_parallel

end Vec3

/-- `src/ray.rs`: origin, direction and time of a ray. -/
structure Ray where
  orig : Vec3
  dir : Vec3
  time : F
deriving DecidableEq

namespace Ray

/-- `Ray::at` (`at` is a Lean keyword): `orig + t * dir`. -/
def at' (r : Ray) (t : F) : Vec3 := Vec3.addv r.orig (Vec3.smul t r.dir)

end Ray

/-- `src/material`: the closed set of material variants with their
construction-time parameters. -/
inductive Material where
  | lambertian (albedo : Vec3)
  | metal (albedo : Vec3) (fuzz : F)
  | dialectric (index_of_refraction : F)
deriving DecidableEq

/-- `HitRecord` from `src/hit/mod.rs`. -/
structure HitRecord where
  p : Vec3
  normal : Vec3
  t : F
  front_face : Bool
  material : Material
deriving DecidableEq

/-- `AABB` from `src/hit/bvh_node.rs`. -/
structure AABB where
  minimum : Vec3
  maximum : Vec3
deriving DecidableEq

namespace AABB

/-- `AABB::surrounding_box`: component-wise `f32::min` of minimums and
`f32::max` of maximums. -/
def surrounding_box (box0 box1 : AABB) : AABB :=
  { minimum := ⟨F.fmin box0.minimum.x box1.minimum.x,
                F.fmin box0.minimum.y box1.minimum.y,
                F.fmin box0.minimum.z box1.minimum.z⟩,
    maximum := ⟨F.fmax box0.maximum.x box1.maximum.x,
                F.fmax box0.maximum.y box1.maximum.y,
                F.fmax box0.maximum.z box1.maximum.z⟩ }

/-- One iteration of the slab loop in `AABB::hit` for axis `a`: true when
the axis does not reject the ray. -/
def axisHit (b : AABB) (r : Ray) (t_min t_max : F) (a : Fin 3) : Bool :=
  let inv_d := F.div (F.fin 1) (r.dir.idx a)
  let s0 := F.mul (F.sub (b.minimum.idx a) (r.orig.idx a)) inv_d
  let s1 := F.mul (F.sub (b.maximum.idx a) (r.orig.idx a)) inv_d
  let t0 := if F.lt inv_d (F.fin 0) then s1 else s0
  let t1 := if F.lt inv_d (F.fin 0) then s0 else s1
  let t_min_p := if F.lt t_min t0 then t0 else t_min
  let t_max_p := if F.lt t1 t_max then t1 else t_max
  !(F.le t_max_p t_min_p)

/-- `AABB::hit`: the slab test over the three axes, returning false as soon
as one axis rejects (the `&&` mirrors the loop's early `return false`). -/
def hit (b : AABB) (r : Ray) (t_min t_max : F) : Bool :=
  axisHit b r t_min t_max 0 && axisHit b r t_min t_max 1 && axisHit b r t_min t_max 2

end AABB

/-- `Sphere` from `src/hit/sphere.rs`. -/
structure Sphere where
  center : Vec3
  radius : F
  material : Material
deriving DecidableEq

/-- `MovingSphere` from `src/hit/moving_sphere.rs`. -/
structure MovingSphere where
  center0 : Vec3
  center1 : Vec3
  time0 : F
  time1 : F
  radius : F
  material : Material
deriving DecidableEq

/-- `MovingSphere::center`: linear interpolation of the two centers at the
given time (not clamped). -/
def MovingSphere.center (s : MovingSphere) (time : F) : Vec3 :=
  Vec3.addv s.center0
    (Vec3.smul (F.div (F.sub time s.time0) (F.sub s.time1 s.time0))
      (Vec3.subv s.center1 s.center0))

/-- The hit record `Sphere::hit` builds at an accepted root: the hit point,
the outward normal `(p - center)/radius`, and the orientation flip
(`front_face` iff `dot(dir, outward) < 0`). -/
def sphereRec (center : Vec3) (radius : F) (material : Material)
    (r : Ray) (root : F) : HitRecord :=
  let p := r.at' root
  let outward_normal := Vec3.divs (Vec3.subv p center) radius
  let front_face := F.lt (Vec3.dot r.dir outward_normal) (F.fin 0)
  let normal := if front_face then outward_normal else Vec3.negv outward_normal
  ⟨p, normal, root, front_face, material⟩

/-- The shared body of `Sphere::hit` and `MovingSphere::hit` once the
effective center is known: solve the quadratic, prefer the smaller root,
then build the oriented hit record.  Both Rust functions are this text with
`center` instantiated. -/
def sphereHitAt (center : Vec3) (radius : F) (material : Material)
    (r : Ray) (t_min t_max : F) : Option HitRecord :=
  let oc := Vec3.subv r.orig center
  let a := Vec3.length_squared r.dir
  let half_b := Vec3.dot oc r.dir
  let c := F.sub (Vec3.length_squared oc) (F.mul radius radius)
  let discriminant := F.sub (F.mul half_b half_b) (F.mul a c)
  if F.lt discriminant (F.fin 0) then none
  else
    let sqrtd := F.sqrt discriminant
    let root0 := F.div (F.sub (F.neg half_b) sqrtd) a
    let root1 := F.div (F.add (F.neg half_b) sqrtd) a
    let root :=
      if F.lt root0 t_min || F.lt t_max root0 then root1 else root0
    if (F.lt root0 t_min || F.lt t_max root0) &&
       (F.lt root1 t_min || F.lt t_max root1) then none
    else some (sphereRec center radius material r root)

/-- `Sphere::hit`. -/
def Sphere.hit (s : Sphere) (r : Ray) (t_min t_max : F) : Option HitRecord :=
  sphereHitAt s.center s.radius s.material r t_min t_max

/-- `MovingSphere::hit`: identical to `Sphere::hit` with the
time-interpolated center. -/
def MovingSphere.hit (s : MovingSphere) (r : Ray) (t_min t_max : F) :
    Option HitRecord :=
  sphereHitAt (s.center r.time) s.radius s.material r t_min t_max

/-- `Sphere::bounding_box`: center ± radius on each axis. -/
def Sphere.bounding_box (s : Sphere) (_time0 _time1 : F) : Option AABB :=
  some { minimum := Vec3.subv s.center ⟨s.radius, s.radius, s.radius⟩,
         maximum := Vec3.addv s.center ⟨s.radius, s.radius, s.radius⟩ }

/-- `MovingSphere::bounding_box`: union of the two endpoint boxes. -/
def MovingSphere.bounding_box (s : MovingSphere) (time0 time1 : F) : Option AABB :=
  let box0 : AABB :=
    { minimum := Vec3.subv (s.center time0) ⟨s.radius, s.radius, s.radius⟩,
      maximum := Vec3.addv (s.center time0) ⟨s.radius, s.radius, s.radius⟩ }
  let box1 : AABB :=
    { minimum := Vec3.subv (s.center time1) ⟨s.radius, s.radius, s.radius⟩,
      maximum := Vec3.addv (s.center time1) ⟨s.radius, s.radius, s.radius⟩ }
  some (AABB.surrounding_box box0 box1)

/-- The closed `Hittable` enum from `src/hit/mod.rs`; a `BVHNode`'s two
children are themselves `Hittable`s. -/
inductive Hittable where
  | sphere (s : Sphere)
  | movingSphere (s : MovingSphere)
  | bvhNode (left : Hittable) (right : Hittable) (aabb_box : AABB)
deriving DecidableEq

namespace Hittable

/-- The `HittableBehavior::hit` dispatch; the `bvhNode` arm is
`BVHNode::hit` from `src/hit/bvh_node.rs`: prune on the node box, probe the
left child over the full interval, probe the right child with `t_max`
tightened to the left hit's `t`, and prefer the right result. -/
def hit : Hittable → Ray → F → F → Option HitRecord
  | sphere s, r, t_min, t_max => s.hit r t_min t_max
  | movingSphere s, r, t_min, t_max => s.hit r t_min t_max
  | bvhNode left right aabb_box, r, t_min, t_max =>
      if !(aabb_box.hit r t_min t_max) then none
      else
        let hit_left := left.hit r t_min t_max
        let hit_right_tmax := match hit_left with
          | some left_hit_rec => left_hit_rec.t
          | none => t_max
        let hit_right := right.hit r t_min hit_right_tmax
        if hit_right.isSome then hit_right
        else if hit_left.isSome then hit_left
        else none

/-- The `HittableBehavior::bounding_box` dispatch. -/
def bounding_box : Hittable → F → F → Option AABB
  | sphere s, time0, time1 => s.bounding_box time0 time1
  | movingSphere s, time0, time1 => s.bounding_box time0 time1
  | bvhNode _ _ aabb_box, _, _ => some aabb_box

end Hittable

/-- The loop state of `hit_list`: the current best record and
`closest_so_far`. -/
def hitListAux : List Hittable → Ray → F → Option HitRecord × F →
    Option HitRecord × F
  | [], _, _, st => st
  | hittable :: rest, r, t_min, (best, closest) =>
      match hittable.hit r t_min closest with
      | some rec' => hitListAux rest r t_min (some rec', rec'.t)
      | none => hitListAux rest r t_min (best, closest)

/-- `hit_list` from `src/hit/mod.rs`: brute-force linear scan, tightening
`closest_so_far` to each accepted hit's `t`. -/
def hit_list (hittables : List Hittable) (r : Ray) (t_min t_max : F) :
    Option HitRecord :=
  (hitListAux hittables r t_min (none, t_max)).1

/-- The `.unwrap()` applied to `bounding_box` results during BVH
construction; every `Hittable` variant reports a box, so the `none` arm
(a Rust panic) is unreachable there. -/
def unwrapBox (o : Option AABB) : AABB :=
  o.getD { minimum := ⟨F.nan, F.nan, F.nan⟩, maximum := ⟨F.nan, F.nan, F.nan⟩ }

/-- `BVHNode::box_compare`: compare two hittables by the `axis` component of
their bounding-box minimums; never returns `Ordering::Equal`. -/
def box_compare (a b : Hittable) (axis : Fin 3) : Ordering :=
  let box_a := unwrapBox (a.bounding_box (F.fin 0) (F.fin 0))
  let box_b := unwrapBox (b.bounding_box (F.fin 0) (F.fin 0))
  let cmp := F.sub (box_a.minimum.idx axis) (box_b.minimum.idx axis)
  if F.lt cmp (F.fin 0) then Ordering.lt else Ordering.gt

/-- Build one BVH node over children `left` and `right`, its box the union
of the children's boxes (the tail of `BVHNode::new_helper`). -/
def mkBVHNode (time0 time1 : F) (left right : Hittable) : Hittable :=
  let box_left := unwrapBox (left.bounding_box time0 time1)
  let box_right := unwrapBox (right.bounding_box time0 time1)
  Hittable.bvhNode left right (AABB.surrounding_box box_left box_right)

/-- `BVHNode::new_helper` over the index range `[start, en)`.  The random
axis drawn at each node is determinised as `axf start en`.  The Rust `>2`
arm sorts a local clone of the sub-range by `box_compare` and then discards
it, recursing on the ORIGINAL `src_objects` order; the model reflects that.
`none` models the panic on an empty range (and an out-of-range index, which
would also panic). -/
def new_helper (src_objects : List Hittable) (start en : ℕ)
    (axf : ℕ → ℕ → Fin 3) (time0 time1 : F) : Option Hittable :=
  let axis := axf start en
  let num_objects := en - start
  if _h0 : num_objects = 0 then none
  else if _h1 : num_objects = 1 then
    match src_objects[start]? with
    | some o => some (mkBVHNode time0 time1 o o)
    | none => none
  else if _h2 : num_objects = 2 then
    match src_objects[start]?, src_objects[start + 1]? with
    | some o1, some o2 =>
        if box_compare o1 o2 axis = Ordering.gt
        then some (mkBVHNode time0 time1 o1 o2)
        else some (mkBVHNode time0 time1 o2 o1)
    | _, _ => none
  else
    let mid := start + num_objects / 2
    match new_helper src_objects start mid axf time0 time1,
          new_helper src_objects mid en axf time0 time1 with
    | some l, some rt => some (mkBVHNode time0 time1 l rt)
    | _, _ => none
termination_by en - start
decreasing_by
  · omega
  · omega

/-- `BVHNode::new`: build the BVH for the whole list. -/
def bvhNew (src_objects : List Hittable) (axf : ℕ → ℕ → Fin 3)
    (time0 time1 : F) : Option Hittable :=
  new_helper src_objects 0 src_objects.length axf time0 time1

/-- `reflectance` from `src/material/dialectric.rs` (Schlick's
approximation). -/
def reflectance (cosine ref_idx : F) : F :=
  let r0 := F.div (F.sub (F.fin 1) ref_idx) (F.add (F.fin 1) ref_idx)
  let r0sq := F.mul r0 r0
  F.add r0sq (F.mul (F.sub (F.fin 1) r0sq) (F.powi (F.sub (F.fin 1) cosine) 5))

/-- One bounce's worth of random draws, determinising `random_unit_vector`,
`random_in_unit_sphere` and `random_f32`. -/
structure Rand where
  ruv : Vec3
  rius : Vec3
  rf : F

/-- `Lambertian::scatter`: diffuse direction `normal + random_unit_vector`,
falling back to the normal when near zero; always scatters, attenuation is
the albedo. -/
def lambertianScatter (albedo : Vec3) (ray : Ray) (rec' : HitRecord)
    (rnd : Rand) : Option Ray × Vec3 :=
  let sd0 := Vec3.addv rec'.normal rnd.ruv
  let scatter_direction := if sd0.near_zero then rec'.normal else sd0
  (some ⟨rec'.p, scatter_direction, ray.time⟩, albedo)

/-- `Metal::scatter`: reflect the unit incoming direction, perturb by
`fuzz * random_in_unit_sphere()`, absorb unless the result points out of
the surface (`dot > 0`); attenuation is the albedo either way. -/
def metalScatter (albedo : Vec3) (fuzz : F) (ray : Ray) (rec' : HitRecord)
    (rnd : Rand) : Option Ray × Vec3 :=
  let reflected := Vec3.reflect (Vec3.unit_vector ray.dir) rec'.normal
  let scattered : Ray :=
    ⟨rec'.p, Vec3.addv reflected (Vec3.smul fuzz rnd.rius), ray.time⟩
  if F.lt (F.fin 0) (Vec3.dot scattered.dir rec'.normal)
  then (some scattered, albedo)
  else (none, albedo)

/-- `Dialectric::scatter`.  Note the final two lines of the Rust body:
having chosen `direction` (reflect or refract), the code applies
`Vec3::refract` to it AGAIN and scatters along that re-refracted vector. -/
def dialectricScatter (ior : F) (ray : Ray) (rec' : HitRecord)
    (rnd : Rand) : Option Ray × Vec3 :=
  let attenuation : Vec3 := ⟨F.fin 1, F.fin 1, F.fin 1⟩
  let refraction_ratio := if rec'.front_face then F.div (F.fin 1) ior else ior
  let unit_direction := Vec3.unit_vector ray.dir
  let cos_theta := F.fmin (Vec3.dot (Vec3.negv unit_direction) rec'.normal) (F.fin 1)
  let sin_theta := F.sqrt (F.sub (F.fin 1) (F.mul cos_theta cos_theta))
  let cannot_refract := F.lt (F.fin 1) (F.mul refraction_ratio sin_theta)
  let direction :=
    if cannot_refract || F.lt rnd.rf (reflectance cos_theta refraction_ratio)
    then Vec3.reflect unit_direction rec'.normal
    else Vec3.refract unit_direction rec'.normal refraction_ratio
  let refracted := Vec3.refract direction rec'.normal refraction_ratio
  (some ⟨rec'.p, refracted, ray.time⟩, attenuation)

/-- The list of primitive (non-`bvhNode`) leaves of a `Hittable` tree, in
left-to-right order. -/
def leavesOf : Hittable → List Hittable
  | Hittable.sphere s => [Hittable.sphere s]
  | Hittable.movingSphere s => [Hittable.movingSphere s]
  | Hittable.bvhNode left right _ => leavesOf left ++ leavesOf right

/-- All three components are finite. -/
def Vec3.finite (v : Vec3) : Bool :=
  v.x.isFinite && v.y.isFinite && v.z.isFinite

/-- A well-formed primitive: a `Sphere` with finite data, or a
`MovingSphere` with finite data and distinct shutter times (so that the
center interpolation does not divide by zero).  `BVHNode`s are not
primitives. -/
def PrimOk : Hittable → Prop
  | Hittable.sphere s => s.center.finite = true ∧ s.radius.isFinite = true
  | Hittable.movingSphere s =>
      s.center0.finite = true ∧ s.center1.finite = true ∧
      s.radius.isFinite = true ∧
      s.time0.isFinite = true ∧ s.time1.isFinite = true ∧ s.time0 ≠ s.time1
  | Hittable.bvhNode _ _ _ => False

instance : DecidablePred PrimOk := by
  intro h
  cases h <;> simp only [PrimOk] <;> infer_instance

/-- A well-formed query ray: finite origin, direction and time, and a
direction that is not the zero vector. -/
def RayOk (r : Ray) : Prop :=
  r.orig.finite = true ∧ r.dir.finite = true ∧ r.time.isFinite = true ∧
  r.dir ≠ Vec3.zero

instance : DecidablePred RayOk := by
  intro r
  unfold RayOk
  infer_instance

/-- The abstract shape of a primitive's `hit` as a function of the query
window: either it misses every window, or there are two rational roots
`ρ1 ≤ ρ2` with window-independent records such that the nearer root in the
window wins.  `Sphere::hit` and `MovingSphere::hit` (on well-formed data)
have this shape. -/
def HitShape (h : Hittable) (r : Ray) : Prop :=
  (∀ t_min t_max, h.hit r t_min t_max = none) ∨
  (∃ ρ1 ρ2 : ℚ, ρ1 ≤ ρ2 ∧ ∃ rc1 rc2 : HitRecord,
    rc1.t = F.fin ρ1 ∧ rc2.t = F.fin ρ2 ∧ ∀ t_min t_max,
    h.hit r t_min t_max =
      if (F.lt (F.fin ρ1) t_min || F.lt t_max (F.fin ρ1)) = false then some rc1
      else if (F.lt (F.fin ρ2) t_min || F.lt t_max (F.fin ρ2)) = false then some rc2
      else none)

/-- The `MaterialBehavior::scatter` dispatch. -/
def Material.scatter : Material → Ray → HitRecord → Rand → Option Ray × Vec3
  | Material.lambertian albedo, ray, rec', rnd => lambertianScatter albedo ray rec' rnd
  | Material.metal albedo fuzz, ray, rec', rnd => metalScatter albedo fuzz ray rec' rnd
  | Material.dialectric ior, ray, rec', rnd => dialectricScatter ior ray rec' rnd

/-- `ray_color` from `src/ray.rs`: depth-bounded recursive estimator.  The
`0.001` shadow-acne bound and `INFINITY` are the literal constants of the
source; the per-bounce random draws are determinised by indexing `rnds`
with the current depth. -/
def ray_color (r : Ray) (hittables : List Hittable) (rnds : ℕ → Rand)
    (depth : ℤ) : Vec3 :=
  if depth ≤ 0 then Vec3.zero
  else
    match hit_list hittables r (F.fin (1 / 1000)) F.pinf with
    | some rec' =>
        match rec'.material.scatter r rec' (rnds depth.toNat) with
        | (some scattered_ray, attenuation) =>
            Vec3.mulv attenuation (ray_color scattered_ray hittables rnds (depth - 1))
        | (none, _) => Vec3.zero
    | none =>
        let unit_direction := Vec3.unit_vector r.dir
        let t := F.mul (F.fin (1 / 2)) (F.add unit_direction.y (F.fin 1))
        Vec3.addv (Vec3.smul (F.sub (F.fin 1) t) ⟨F.fin 1, F.fin 1, F.fin 1⟩)
          (Vec3.smul t ⟨F.fin (1 / 2), F.fin (7 / 10), F.fin 1⟩)
termination_by depth.toNat
decreasing_by omega

/-- A concrete material for the scenario evaluations below. -/
def exMat : Material := Material.lambertian ⟨F.fin (1/2), F.fin (1/2), F.fin (1/2)⟩

/-- A determinised axis chooser that always draws axis 0. -/
def axisZero : ℕ → ℕ → Fin 3 := fun _ _ => 0

/-! ## Order and arithmetic lemmas for the IEEE scalar -/

namespace F

theorem fin_add_fin (a b : ℚ) : add (fin a) (fin b) = fin (a + b) := rfl

theorem fin_sub_fin (a b : ℚ) : sub (fin a) (fin b) = fin (a - b) := by
  simp [sub, neg, add, sub_eq_add_neg]

theorem fin_mul_fin (a b : ℚ) : mul (fin a) (fin b) = fin (a * b) := rfl

theorem neg_fin (a : ℚ) : neg (fin a) = fin (-a) := rfl

theorem fin_div_fin (a b : ℚ) (h : b ≠ 0) : div (fin a) (fin b) = fin (a / b) := by
  simp [div, h]

theorem lt_fin_fin (a b : ℚ) : lt (fin a) (fin b) = decide (a < b) := rfl

theorem le_fin_fin (a b : ℚ) : le (fin a) (fin b) = decide (a ≤ b) := rfl

theorem le_refl' {a : F} (h : a ≠ nan) : le a a = true := by
  cases a <;> simp [le] at h ⊢

theorem ne_nan_left_of_le {a b : F} (h : le a b = true) : a ≠ nan := by
  cases a <;> simp [le] at h ⊢

theorem ne_nan_right_of_le {a b : F} (h : le a b = true) : b ≠ nan := by
  cases a <;> cases b <;> simp [le] at h ⊢

theorem le_trans' {a b c : F} (h1 : le a b = true) (h2 : le b c = true) :
    le a c = true := by
  cases a <;> cases b <;> cases c <;>
    simp only [le, decide_eq_true_eq] at h1 h2 ⊢ <;> first | trivial | exact le_trans h1 h2

theorem le_of_lt' {a b : F} (h : lt a b = true) : le a b = true := by
  cases a <;> cases b <;>
    simp only [lt, le, decide_eq_true_eq] at h ⊢ <;> first | trivial | exact le_of_lt h

/-- Totality for non-NaN values: a failed `<` is a reversed `≤`. -/
theorem le_of_not_lt' {a b : F} (ha : a ≠ nan) (hb : b ≠ nan)
    (h : lt a b = false) : le b a = true := by
  cases a <;> cases b <;>
    simp only [lt, le, decide_eq_true_eq, decide_eq_false_iff_not] at h ha hb ⊢ <;>
    first | trivial | exact le_of_not_lt h

/-- A finite value `≤ w` cannot exceed `w` in the `<` test. -/
theorem lt_eq_false_of_le {w : F} {ρ : ℚ} (h : le (fin ρ) w = true) :
    lt w (fin ρ) = false := by
  cases w <;> simp only [le, lt, decide_eq_true_eq, decide_eq_false_iff_not] at h ⊢ <;>
    first | trivial | exact not_lt.mpr h

theorem le_fin_of_le_of_le {w : F} {a b : ℚ} (h : le (fin a) w = true)
    (hab : b ≤ a) : le (fin b) w = true := by
  cases w <;> simp only [le, decide_eq_true_eq] at h ⊢ <;>
    first | trivial | exact le_trans hab h

theorem isqrt_cast_nonneg (n : ℕ) : (0 : ℚ) ≤ (isqrt n : ℚ) := by positivity

theorem ratSqrt_nonneg (q : ℚ) : 0 ≤ ratSqrt q := by
  unfold ratSqrt
  positivity

theorem isFinite_elim {a : F} (h : isFinite a = true) : ∃ q : ℚ, a = fin q := by
  cases a <;> simp [isFinite] at h ⊢

end F

theorem Vec3.finite_elim {v : Vec3} (h : Vec3.finite v = true) :
    ∃ a b c : ℚ, v = ⟨F.fin a, F.fin b, F.fin c⟩ := by
  rcases v with ⟨x, y, z⟩
  cases x <;> cases y <;> cases z <;>
    simp only [Vec3.finite, F.isFinite, Bool.and_eq_true] at h ⊢
  · exact ⟨_, _, _, rfl⟩
  all_goals simp_all

/-- A nonzero vector of rationals has positive squared length. -/
theorem sum_sq_pos {a b c : ℚ} (h : ¬(a = 0 ∧ b = 0 ∧ c = 0)) :
    0 < a * a + b * b + c * c := by
  rcases eq_or_ne a 0 with ha | ha
  · rcases eq_or_ne b 0 with hb | hb
    · rcases eq_or_ne c 0 with hc | hc
      · exact absurd ⟨ha, hb, hc⟩ h
      · subst ha hb
        simpa using mul_self_pos.mpr hc
    · nlinarith [mul_self_pos.mpr hb, mul_self_nonneg a, mul_self_nonneg c]
  · nlinarith [mul_self_pos.mpr ha, mul_self_nonneg b, mul_self_nonneg c]

/-- Structure of `sphereHitAt` on finite data with a nonzero ray direction:
either it misses for every query window (negative discriminant), or there
are two rational roots `ρ1 ≤ ρ2` such that for every window the result is
the record at `ρ1` if `ρ1` passes the range test, else the record at `ρ2`
if it passes, else no hit.  The records do not depend on the window. -/
theorem sphereHitAt_char (center : Vec3) (radius : F) (material : Material)
    (r : Ray) (hc : center.finite = true) (hrad : radius.isFinite = true)
    (ho : r.orig.finite = true) (hd : r.dir.finite = true)
    (hnz : r.dir ≠ Vec3.zero) :
    (∀ t_min t_max, sphereHitAt center radius material r t_min t_max = none) ∨
    (∃ ρ1 ρ2 : ℚ, ρ1 ≤ ρ2 ∧ ∀ t_min t_max,
      sphereHitAt center radius material r t_min t_max =
        if (F.lt (F.fin ρ1) t_min || F.lt t_max (F.fin ρ1)) = false
        then some (sphereRec center radius material r (F.fin ρ1))
        else if (F.lt (F.fin ρ2) t_min || F.lt t_max (F.fin ρ2)) = false
        then some (sphereRec center radius material r (F.fin ρ2))
        else none) := by
  obtain ⟨cx, cy, cz, hcv⟩ := Vec3.finite_elim hc
  obtain ⟨rd, hrd⟩ := F.isFinite_elim hrad
  rcases r with ⟨rorig, rdir, rtime⟩
  obtain ⟨ox, oy, oz, hov⟩ := Vec3.finite_elim ho
  obtain ⟨dx, dy, dz, hdv⟩ := Vec3.finite_elim hd
  subst hcv hrd hov hdv
  have hnz' : ¬(dx = 0 ∧ dy = 0 ∧ dz = 0) := by
    intro ⟨h1, h2, h3⟩
    exact hnz (by simp [h1, h2, h3, Vec3.zero])
  have hα : 0 < dx * dx + dy * dy + dz * dz := sum_sq_pos hnz'
  simp only [sphereHitAt, Vec3.subv, Vec3.dot, Vec3.length_squared,
    F.fin_sub_fin, F.fin_mul_fin, F.fin_add_fin, F.neg_fin]
  generalize (ox - cx) * dx + (oy - cy) * dy + (oz - cz) * dz = β
  generalize (ox - cx) * (ox - cx) + (oy - cy) * (oy - cy) +
    (oz - cz) * (oz - cz) - rd * rd = γ
  generalize hA : dx * dx + dy * dy + dz * dz = A at hα ⊢
  rcases lt_or_le (β * β - A * γ) 0 with hδ | hδ
  · left
    intro t_min t_max
    simp [F.lt_fin_fin, hδ]
  · right
    have hAne : A ≠ 0 := ne_of_gt hα
    have hσ := F.ratSqrt_nonneg (β * β - A * γ)
    have h0 : decide (β * β - A * γ < 0) = false := by simp [not_lt.mpr hδ]
    have hsq : F.sqrt (F.fin (β * β - A * γ)) = F.fin (F.ratSqrt (β * β - A * γ)) := by
      simp [F.sqrt, not_lt.mpr hδ]
    simp only [F.lt_fin_fin, h0, Bool.false_eq_true, if_false, hsq,
      F.fin_sub_fin, F.fin_add_fin, F.fin_div_fin _ _ hAne]
    refine ⟨(-β - F.ratSqrt (β * β - A * γ)) / A,
      (-β + F.ratSqrt (β * β - A * γ)) / A, ?_, ?_⟩
    · rw [div_le_div_iff₀ hα hα]
      nlinarith [mul_nonneg hσ (le_of_lt hα)]
    · intro t_min t_max
      cases h1 : (F.lt (F.fin ((-β - F.ratSqrt (β * β - A * γ)) / A)) t_min ||
          F.lt t_max (F.fin ((-β - F.ratSqrt (β * β - A * γ)) / A))) <;>
        cases h2 : (F.lt (F.fin ((-β + F.ratSqrt (β * β - A * γ)) / A)) t_min ||
            F.lt t_max (F.fin ((-β + F.ratSqrt (β * β - A * γ)) / A))) <;>
        simp [h1, h2]

/-- A value `w` cannot be both strictly below `ρ1` and at least `ρ2` when
`ρ1 ≤ ρ2`. -/
theorem F.lt_true_le_false {w : F} {u v : ℚ} (huv : u ≤ v)
    (hlt : F.lt w (F.fin u) = true) (hle : F.le (F.fin v) w = true) : False := by
  cases w <;>
    simp only [F.lt, F.le, decide_eq_true_eq] at hlt hle <;>
    first | trivial | linarith

namespace HitShape

theorem range {h : Hittable} {r : Ray} {t_min t_max : F} {rec : HitRecord}
    (hs : HitShape h r) (htx : t_max ≠ F.nan)
    (hh : h.hit r t_min t_max = some rec) :
    (∃ ρ : ℚ, rec.t = F.fin ρ) ∧ F.le rec.t t_max = true ∧
    (t_min ≠ F.nan → F.le t_min rec.t = true) := by
  rcases hs with hnone | ⟨ρ1, ρ2, h12, rc1, rc2, ht1, ht2, heq⟩
  · rw [hnone] at hh
    exact absurd hh (by simp)
  · rw [heq] at hh
    split_ifs at hh with c1 c2
    · obtain ⟨hA, hB⟩ := Bool.or_eq_false_iff.mp c1
      obtain rfl : rc1 = rec := by injection hh
      refine ⟨⟨ρ1, ht1⟩, ?_, ?_⟩
      · rw [ht1]
        exact F.le_of_not_lt' htx (by simp) hB
      · intro htm
        rw [ht1]
        exact F.le_of_not_lt' (by simp) htm hA
    · obtain ⟨hA, hB⟩ := Bool.or_eq_false_iff.mp c2
      obtain rfl : rc2 = rec := by injection hh
      refine ⟨⟨ρ2, ht2⟩, ?_, ?_⟩
      · rw [ht2]
        exact F.le_of_not_lt' htx (by simp) hB
      · intro htm
        rw [ht2]
        exact F.le_of_not_lt' (by simp) htm hA

theorem widen {h : Hittable} {r : Ray} {t_min t_max t_max' : F} {rec : HitRecord}
    (hs : HitShape h r) (hw : F.le t_max t_max' = true)
    (hh : h.hit r t_min t_max = some rec) :
    h.hit r t_min t_max' = some rec := by
  have htx : t_max ≠ F.nan := F.ne_nan_left_of_le hw
  have htx' : t_max' ≠ F.nan := F.ne_nan_right_of_le hw
  rcases hs with hnone | ⟨ρ1, ρ2, h12, rc1, rc2, ht1, ht2, heq⟩
  · rw [hnone] at hh
    exact absurd hh (by simp)
  · rw [heq] at hh ⊢
    split_ifs at hh with c1 c2
    · obtain ⟨hA, hB⟩ := Bool.or_eq_false_iff.mp c1
      have le1 : F.le (F.fin ρ1) t_max := F.le_of_not_lt' htx (by simp) hB
      have le1' : F.le (F.fin ρ1) t_max' := F.le_trans' le1 hw
      rw [if_pos (Bool.or_eq_false_iff.mpr ⟨hA, F.lt_eq_false_of_le le1'⟩)]
      exact hh
    · obtain ⟨hA2, hB2⟩ := Bool.or_eq_false_iff.mp c2
      have le2 : F.le (F.fin ρ2) t_max := F.le_of_not_lt' htx (by simp) hB2
      have le2' : F.le (F.fin ρ2) t_max' := F.le_trans' le2 hw
      have c1' : (F.lt (F.fin ρ1) t_min || F.lt t_max (F.fin ρ1)) = true := by
        revert c1
        cases F.lt (F.fin ρ1) t_min || F.lt t_max (F.fin ρ1) <;> simp
      have hmin : F.lt (F.fin ρ1) t_min = true := by
        rcases Bool.or_eq_true_iff.mp c1' with hx | hx
        · exact hx
        · exact absurd (F.lt_true_le_false h12 hx le2) (by simp)
      rw [if_neg (by simp [hmin]), if_pos (Bool.or_eq_false_iff.mpr
        ⟨(by simpa using Bool.or_eq_false_iff.mp c2 |>.1), F.lt_eq_false_of_le le2'⟩)]
      exact hh

theorem shrink {h : Hittable} {r : Ray} {t_min t_max t_max' : F} {rec : HitRecord}
    (hs : HitShape h r) (hrecle : F.le rec.t t_max' = true)
    (hsh : F.le t_max' t_max = true)
    (hh : h.hit r t_min t_max = some rec) :
    h.hit r t_min t_max' = some rec := by
  have htx : t_max ≠ F.nan := F.ne_nan_right_of_le hsh
  rcases hs with hnone | ⟨ρ1, ρ2, h12, rc1, rc2, ht1, ht2, heq⟩
  · rw [hnone] at hh
    exact absurd hh (by simp)
  · rw [heq] at hh ⊢
    split_ifs at hh with c1 c2
    · obtain ⟨hA, hB⟩ := Bool.or_eq_false_iff.mp c1
      obtain rfl : rc1 = rec := by injection hh
      have le1' : F.le (F.fin ρ1) t_max' := ht1 ▸ hrecle
      rw [if_pos (Bool.or_eq_false_iff.mpr ⟨hA, F.lt_eq_false_of_le le1'⟩)]
    · obtain ⟨hA2, hB2⟩ := Bool.or_eq_false_iff.mp c2
      obtain rfl : rc2 = rec := by injection hh
      have le2 : F.le (F.fin ρ2) t_max := F.le_of_not_lt' htx (by simp) hB2
      have le2' : F.le (F.fin ρ2) t_max' := ht2 ▸ hrecle
      have c1' : (F.lt (F.fin ρ1) t_min || F.lt t_max (F.fin ρ1)) = true := by
        revert c1
        cases F.lt (F.fin ρ1) t_min || F.lt t_max (F.fin ρ1) <;> simp
      have hmin : F.lt (F.fin ρ1) t_min = true := by
        rcases Bool.or_eq_true_iff.mp c1' with hx | hx
        · exact hx
        · exact absurd (F.lt_true_le_false h12 hx le2) (by simp)
      rw [if_neg (by simp [hmin]), if_pos (Bool.or_eq_false_iff.mpr
        ⟨hA2, F.lt_eq_false_of_le le2'⟩)]

/-- Shrinking the window either keeps the same hit (when its `t` still
fits) or the hit's `t` lies strictly beyond the smaller window. -/
theorem shrink_or {h : Hittable} {r : Ray} {t_min w w' : F} {rec : HitRecord}
    (hs : HitShape h r) (hw' : F.le w' w = true)
    (hh : h.hit r t_min w = some rec) :
    (F.le rec.t w' = true ∧ h.hit r t_min w' = some rec) ∨
    F.lt w' rec.t = true := by
  have hwne : w ≠ F.nan := F.ne_nan_right_of_le hw'
  have hw'ne : w' ≠ F.nan := F.ne_nan_left_of_le hw'
  obtain ⟨⟨ρ, hρ⟩, _, _⟩ := range hs hwne hh
  cases hc : F.lt w' rec.t with
  | true => exact Or.inr rfl
  | false =>
      have hle : F.le rec.t w' = true := by
        rw [hρ] at hc ⊢
        exact F.le_of_not_lt' hw'ne (by simp) hc
      exact Or.inl ⟨hle, shrink hs hle hw' hh⟩

end HitShape

theorem Vec3.finite_mk (a b c : ℚ) :
    Vec3.finite ⟨F.fin a, F.fin b, F.fin c⟩ = true := rfl

/-- The interpolated center of a well-formed `MovingSphere` at a finite
time is finite (the shutter interval has nonzero length). -/
theorem MovingSphere.center_finite (s : MovingSphere) (t : F)
    (hc0 : s.center0.finite = true) (hc1 : s.center1.finite = true)
    (ht0 : s.time0.isFinite = true) (ht1 : s.time1.isFinite = true)
    (hne : s.time0 ≠ s.time1) (ht : t.isFinite = true) :
    (s.center t).finite = true := by
  obtain ⟨ax, ay, az, h0⟩ := Vec3.finite_elim hc0
  obtain ⟨bx, by', bz, h1⟩ := Vec3.finite_elim hc1
  obtain ⟨t0, ht0'⟩ := F.isFinite_elim ht0
  obtain ⟨t1, ht1'⟩ := F.isFinite_elim ht1
  obtain ⟨tq, htq⟩ := F.isFinite_elim ht
  have hden : t1 - t0 ≠ 0 := by
    rw [ht0', ht1'] at hne
    intro hz
    exact hne (by simp [sub_eq_zero.mp hz])
  rw [MovingSphere.center, h0, h1, ht0', ht1', htq]
  simp only [Vec3.subv, Vec3.smul, Vec3.addv, F.fin_sub_fin,
    F.fin_div_fin _ _ hden, F.fin_mul_fin, F.fin_add_fin]
  exact Vec3.finite_mk _ _ _

/-- A well-formed primitive queried with a well-formed ray has the
two-root hit shape. -/
theorem primHit_shape {h : Hittable} {r : Ray} (hp : PrimOk h) (hr : RayOk r) :
    HitShape h r := by
  obtain ⟨ho, hd, htime, hnz⟩ := hr
  cases h with
  | sphere s =>
      obtain ⟨hc, hrad⟩ := hp
      rcases sphereHitAt_char s.center s.radius s.material r hc hrad ho hd hnz with
        h1 | ⟨ρ1, ρ2, h12, heq⟩
      · exact Or.inl fun t_min t_max => h1 t_min t_max
      · exact Or.inr ⟨ρ1, ρ2, h12,
          sphereRec s.center s.radius s.material r (F.fin ρ1),
          sphereRec s.center s.radius s.material r (F.fin ρ2), rfl, rfl,
          fun t_min t_max => heq t_min t_max⟩
  | movingSphere s =>
      obtain ⟨hc0, hc1, hrad, ht0, ht1, hne⟩ := hp
      have hc := s.center_finite r.time hc0 hc1 ht0 ht1 hne htime
      rcases sphereHitAt_char (s.center r.time) s.radius s.material r hc hrad ho hd hnz with
        h1 | ⟨ρ1, ρ2, h12, heq⟩
      · exact Or.inl fun t_min t_max => h1 t_min t_max
      · exact Or.inr ⟨ρ1, ρ2, h12,
          sphereRec (s.center r.time) s.radius s.material r (F.fin ρ1),
          sphereRec (s.center r.time) s.radius s.material r (F.fin ρ2), rfl, rfl,
          fun t_min t_max => heq t_min t_max⟩
  | bvhNode left right box => exact hp.elim

/-- Master invariant of the `hit_list` loop: the final `closest_so_far`
never grows, the final best record (if changed) carries a finite `t` equal
to the final `closest_so_far`, and the result dominates every individual
primitive hit in the current window. -/
theorem hitListAux_spec (r : Ray) (t_min : F) :
    ∀ (l : List Hittable), (∀ p ∈ l, HitShape p r) →
    ∀ (best : Option HitRecord) (closest : F), closest ≠ F.nan →
    (hitListAux l r t_min (best, closest)).2 ≠ F.nan ∧
    F.le (hitListAux l r t_min (best, closest)).2 closest = true ∧
    ((hitListAux l r t_min (best, closest)).1 = best ∧
      (hitListAux l r t_min (best, closest)).2 = closest ∨
      ∃ b ρ, (hitListAux l r t_min (best, closest)).1 = some b ∧
        (hitListAux l r t_min (best, closest)).2 = b.t ∧ b.t = F.fin ρ) ∧
    ∀ p ∈ l, ∀ rec, p.hit r t_min closest = some rec →
      (hitListAux l r t_min (best, closest)).1.isSome = true ∧
      F.le (hitListAux l r t_min (best, closest)).2 rec.t = true := by
  intro l
  induction l with
  | nil =>
      intro _ best closest hcl
      refine ⟨hcl, F.le_refl' hcl, Or.inl ⟨rfl, rfl⟩, ?_⟩
      intro p hp
      exact absurd hp (by simp)
  | cons hd tl ih =>
      intro hl best closest hcl
      have hshd : HitShape hd r := hl hd (by simp)
      have hltl : ∀ p ∈ tl, HitShape p r := fun p hp => hl p (by simp [hp])
      cases hhd : hd.hit r t_min closest with
      | none =>
          have hstep : hitListAux (hd :: tl) r t_min (best, closest) =
              hitListAux tl r t_min (best, closest) := by
            simp [hitListAux, hhd]
          obtain ⟨hne, hle, hshape, huniv⟩ := ih hltl best closest hcl
          rw [hstep]
          refine ⟨hne, hle, hshape, ?_⟩
          intro p hp rec hrec
          rcases List.mem_cons.mp hp with rfl | hp'
          · rw [hhd] at hrec
            exact absurd hrec (by simp)
          · exact huniv p hp' rec hrec
      | some rec0 =>
          obtain ⟨⟨ρ0, hρ0⟩, hle0, _⟩ := HitShape.range hshd hcl hhd
          have hrec0ne : rec0.t ≠ F.nan := by rw [hρ0]; simp
          have hstep : hitListAux (hd :: tl) r t_min (best, closest) =
              hitListAux tl r t_min (some rec0, rec0.t) := by
            simp [hitListAux, hhd]
          obtain ⟨hne, hle, hshape, huniv⟩ := ih hltl (some rec0) rec0.t hrec0ne
          rw [hstep]
          refine ⟨hne, F.le_trans' hle hle0, ?_, ?_⟩
          · rcases hshape with ⟨h1, h2⟩ | ⟨b, ρ, h1, h2, h3⟩
            · exact Or.inr ⟨rec0, ρ0, h1, h2, hρ0⟩
            · exact Or.inr ⟨b, ρ, h1, h2, h3⟩
          · intro p hp rec hrec
            rcases List.mem_cons.mp hp with rfl | hp'
            · obtain rfl : rec0 = rec := by rw [hhd] at hrec; injection hrec
              constructor
              · rcases hshape with ⟨h1, _⟩ | ⟨b, _, h1, _, _⟩ <;> simp [h1]
              · exact hle
            · rcases HitShape.shrink_or (hl p hp) hle0 hrec with ⟨hler, hhit'⟩ | hlt
              · exact huniv p hp' rec hhit'
              · constructor
                · rcases hshape with ⟨h1, _⟩ | ⟨b, _, h1, _, _⟩ <;> simp [h1]
                · exact F.le_trans' hle (F.le_of_lt' hlt)

/-- If some member of the list hits inside the window, the brute-force scan
returns a hit whose `t` is no greater. -/
theorem hit_list_min {r : Ray} {t_min t_max : F} {l : List Hittable}
    (hl : ∀ p ∈ l, HitShape p r) (htx : t_max ≠ F.nan)
    {p : Hittable} {rec : HitRecord} (hp : p ∈ l)
    (hh : p.hit r t_min t_max = some rec) :
    ∃ rec', hit_list l r t_min t_max = some rec' ∧ F.le rec'.t rec.t = true := by
  obtain ⟨hne, hle, hshape, huniv⟩ := hitListAux_spec r t_min l hl none t_max htx
  obtain ⟨hsome, hlerec⟩ := huniv p hp rec hh
  rcases hshape with ⟨h1, _⟩ | ⟨b, ρ, h1, h2, _⟩
  · rw [h1] at hsome
    exact absurd hsome (by simp)
  · refine ⟨b, ?_, ?_⟩
    · rw [hit_list, h1]
    · rw [h2] at hlerec
      exact hlerec


/-- Every hit a BVH subtree reports lies inside the query window and has a
finite `t` (for well-shaped leaves and non-NaN window ends). -/
theorem tree_hit_range {r : Ray} {t_min : F} :
    ∀ {T : Hittable}, (∀ p ∈ leavesOf T, HitShape p r) →
    ∀ {t_max : F} {rec : HitRecord}, t_min ≠ F.nan → t_max ≠ F.nan →
    T.hit r t_min t_max = some rec →
    (∃ ρ, rec.t = F.fin ρ) ∧ F.le t_min rec.t = true ∧ F.le rec.t t_max = true := by
  intro T
  induction T with
  | sphere s =>
      intro hT t_max rec htm htx hh
      obtain ⟨hfin, hle, hge⟩ := HitShape.range (hT _ (by simp [leavesOf])) htx hh
      exact ⟨hfin, hge htm, hle⟩
  | movingSphere s =>
      intro hT t_max rec htm htx hh
      obtain ⟨hfin, hle, hge⟩ := HitShape.range (hT _ (by simp [leavesOf])) htx hh
      exact ⟨hfin, hge htm, hle⟩
  | bvhNode left right box ihl ihr =>
      intro hT t_max rec htm htx hh
      have hTl : ∀ p ∈ leavesOf left, HitShape p r := fun p hp =>
        hT p (by simp [leavesOf, hp])
      have hTr : ∀ p ∈ leavesOf right, HitShape p r := fun p hp =>
        hT p (by simp [leavesOf, hp])
      simp only [Hittable.hit] at hh
      cases hbox : box.hit r t_min t_max with
      | false => rw [hbox] at hh; simp at hh
      | true =>
          rw [hbox] at hh
          simp only [Bool.not_true, Bool.false_eq_true, if_false] at hh
          cases hleft : left.hit r t_min t_max with
          | none =>
              rw [hleft] at hh
              cases hright : right.hit r t_min t_max with
              | none => rw [hright] at hh; simp at hh
              | some rr =>
                  rw [hright] at hh
                  simp only [Option.isSome_some, if_true] at hh
                  obtain rfl : rr = rec := by injection hh
                  exact ihr hTr htm htx hright
          | some lr =>
              rw [hleft] at hh
              obtain ⟨⟨ρl, hρl⟩, hgel, hlel⟩ := ihl hTl htm htx hleft
              have hlrne : lr.t ≠ F.nan := by rw [hρl]; simp
              cases hright : right.hit r t_min lr.t with
              | none =>
                  rw [hright] at hh
                  simp only [Option.isSome_none, Bool.false_eq_true, if_false,
                    Option.isSome_some, if_true] at hh
                  obtain rfl : lr = rec := by injection hh
                  exact ⟨⟨ρl, hρl⟩, hgel, hlel⟩
              | some rr =>
                  rw [hright] at hh
                  simp only [Option.isSome_some, if_true] at hh
                  obtain rfl : rr = rec := by injection hh
                  obtain ⟨hfin, hge, hle⟩ := ihr hTr htm hlrne hright
                  exact ⟨hfin, hge, F.le_trans' hle hlel⟩

/-- Soundness of BVH traversal: every hit the tree reports is the hit of
one of its leaf primitives over the same window. -/
theorem tree_hit_sound {r : Ray} {t_min : F} :
    ∀ {T : Hittable}, (∀ p ∈ leavesOf T, HitShape p r) →
    ∀ {t_max : F} {rec : HitRecord}, t_min ≠ F.nan → t_max ≠ F.nan →
    T.hit r t_min t_max = some rec →
    ∃ p ∈ leavesOf T, p.hit r t_min t_max = some rec := by
  intro T
  induction T with
  | sphere s =>
      intro hT t_max rec htm htx hh
      exact ⟨_, by simp [leavesOf], hh⟩
  | movingSphere s =>
      intro hT t_max rec htm htx hh
      exact ⟨_, by simp [leavesOf], hh⟩
  | bvhNode left right box ihl ihr =>
      intro hT t_max rec htm htx hh
      have hTl : ∀ p ∈ leavesOf left, HitShape p r := fun p hp =>
        hT p (by simp [leavesOf, hp])
      have hTr : ∀ p ∈ leavesOf right, HitShape p r := fun p hp =>
        hT p (by simp [leavesOf, hp])
      simp only [Hittable.hit] at hh
      cases hbox : box.hit r t_min t_max with
      | false => rw [hbox] at hh; simp at hh
      | true =>
          rw [hbox] at hh
          simp only [Bool.not_true, Bool.false_eq_true, if_false] at hh
          cases hleft : left.hit r t_min t_max with
          | none =>
              rw [hleft] at hh
              cases hright : right.hit r t_min t_max with
              | none => rw [hright] at hh; simp at hh
              | some rr =>
                  rw [hright] at hh
                  simp only [Option.isSome_some, if_true] at hh
                  obtain rfl : rr = rec := by injection hh
                  obtain ⟨p, hp, hph⟩ := ihr hTr htm htx hright
                  exact ⟨p, by simp [leavesOf, hp], hph⟩
          | some lr =>
              rw [hleft] at hh
              obtain ⟨⟨ρl, hρl⟩, hgel, hlel⟩ := tree_hit_range hTl htm htx hleft
              have hlrne : lr.t ≠ F.nan := by rw [hρl]; simp
              cases hright : right.hit r t_min lr.t with
              | none =>
                  rw [hright] at hh
                  simp only [Option.isSome_none, Bool.false_eq_true, if_false,
                    Option.isSome_some, if_true] at hh
                  obtain rfl : lr = rec := by injection hh
                  obtain ⟨p, hp, hph⟩ := ihl hTl htm htx hleft
                  exact ⟨p, by simp [leavesOf, hp], hph⟩
              | some rr =>
                  rw [hright] at hh
                  simp only [Option.isSome_some, if_true] at hh
                  obtain rfl : rr = rec := by injection hh
                  obtain ⟨p, hp, hph⟩ := ihr hTr htm hlrne hright
                  refine ⟨p, by simp [leavesOf, hp], ?_⟩
                  exact HitShape.widen (hTr p hp) hlel hph

theorem leavesOf_prim {o : Hittable} (h : PrimOk o) : leavesOf o = [o] := by
  cases o with
  | sphere s => rfl
  | movingSphere s => rfl
  | bvhNode a b c => exact h.elim

theorem leavesOf_mkBVHNode (time0 time1 : F) (a b : Hittable) :
    leavesOf (mkBVHNode time0 time1 a b) = leavesOf a ++ leavesOf b := rfl

/-- Every leaf of a tree built by `new_helper` over a list of primitives is
an element of that list (a consequence of the recursion working over index
ranges of the original list). -/
theorem new_helper_leaves (objs : List Hittable) (axf : ℕ → ℕ → Fin 3)
    (time0 time1 : F) (hobjs : ∀ o ∈ objs, PrimOk o) :
    ∀ n s e, e - s ≤ n → ∀ T, new_helper objs s e axf time0 time1 = some T →
    ∀ p ∈ leavesOf T, p ∈ objs := by
  intro n
  induction n with
  | zero =>
      intro s e hse T hT
      unfold new_helper at hT
      rw [dif_pos (by omega)] at hT
      exact absurd hT (by simp)
  | succ n ih =>
      intro s e hse T hT p hp
      unfold new_helper at hT
      by_cases h0 : e - s = 0
      · rw [dif_pos h0] at hT
        exact absurd hT (by simp)
      · rw [dif_neg h0] at hT
        by_cases h1 : e - s = 1
        · rw [dif_pos h1] at hT
          cases ho : objs[s]? with
          | none => simp [ho] at hT
          | some o =>
              simp only [ho, Option.some.injEq] at hT
              subst hT
              have hom : o ∈ objs := List.getElem?_mem ho
              rw [leavesOf_mkBVHNode, leavesOf_prim (hobjs o hom)] at hp
              simp at hp
              subst hp
              exact hom
        · rw [dif_neg h1] at hT
          by_cases h2 : e - s = 2
          · rw [dif_pos h2] at hT
            cases ho1 : objs[s]? with
            | none => simp [ho1] at hT
            | some o1 =>
                cases ho2 : objs[s + 1]? with
                | none => simp [ho1, ho2] at hT
                | some o2 =>
                    simp only [ho1, ho2] at hT
                    have hm1 : o1 ∈ objs := List.getElem?_mem ho1
                    have hm2 : o2 ∈ objs := List.getElem?_mem ho2
                    split at hT <;>
                    · simp only [Option.some.injEq] at hT
                      subst hT
                      rw [leavesOf_mkBVHNode, leavesOf_prim (hobjs _ hm1),
                        leavesOf_prim (hobjs _ hm2)] at hp
                      simp at hp
                      rcases hp with rfl | rfl <;> assumption
          · rw [dif_neg h2] at hT
            cases hK : new_helper objs (s + (e - s) / 2) e axf time0 time1 with
            | none =>
                cases hL : new_helper objs s (s + (e - s) / 2) axf time0 time1 with
                | none => simp [hK, hL] at hT
                | some l => simp [hK, hL] at hT
            | some rt =>
                cases hL : new_helper objs s (s + (e - s) / 2) axf time0 time1 with
                | none => simp [hK, hL] at hT
                | some l =>
                    simp only [hK, hL, Option.some.injEq] at hT
                    subst hT
                    rw [leavesOf_mkBVHNode] at hp
                    rcases List.mem_append.mp hp with hp' | hp'
                    · exact ih s (s + (e - s) / 2) (by omega) l hL p hp'
                    · exact ih (s + (e - s) / 2) e (by omega) rt hK p hp'


/-- C1 (amended, soundness direction): every hit returned by traversing
the `BVHNode` built from a list of primitives is matched by the
brute-force linear scan `hit_list` over the same list, ray and interval,
which reports a hit with a parameter `t` no greater than the BVH's.  In
particular the BVH never reports a hit on a scene the linear scan misses.
(The converse direction fails at exact boundary coincidences, see the
counterexample.) -/
theorem C1_bvh_hit_implies_hit_list_hit
    (objs : List Hittable) (axf : ℕ → ℕ → Fin 3) (time0 time1 : F)
    (T : Hittable) (r : Ray) (t_min t_max : F) (rec : HitRecord)
    (hobjs : ∀ o ∈ objs, PrimOk o) (hr : RayOk r)
    (htm : t_min ≠ F.nan) (htx : t_max ≠ F.nan)
    (hbuild : bvhNew objs axf time0 time1 = some T)
    (hhit : T.hit r t_min t_max = some rec) :
    ∃ rec', hit_list objs r t_min t_max = some rec' ∧ F.le rec'.t rec.t = true := by
  have hbuild' : new_helper objs 0 objs.length axf time0 time1 = some T := hbuild
  have hleaves : ∀ p ∈ leavesOf T, p ∈ objs :=
    new_helper_leaves objs axf time0 time1 hobjs objs.length 0 objs.length
      (by omega) T hbuild'
  have hshapes : ∀ p ∈ leavesOf T, HitShape p r := fun p hp =>
    primHit_shape (hobjs p (hleaves p hp)) hr
  obtain ⟨p, hp, hph⟩ := tree_hit_sound hshapes htm htx hhit
  exact hit_list_min (fun q hq => primHit_shape (hobjs q hq) hr) htx
    (hleaves p hp) hph

/-- Witness for C1: a one-sphere scene (center `(0,0,-5)`, radius 1), the
ray from the origin along `-z`, window `[0, 10]`; the BVH reports the hit
at `t = 4` and the theorem yields the linear-scan hit at a `t ≤ 4`. -/
theorem C1_bvh_hit_implies_hit_list_hit_witness :
    ∃ rec', hit_list [Hittable.sphere ⟨⟨F.fin 0, F.fin 0, F.fin (-5)⟩, F.fin 1, exMat⟩]
        ⟨⟨F.fin 0, F.fin 0, F.fin 0⟩, ⟨F.fin 0, F.fin 0, F.fin (-1)⟩, F.fin 0⟩
        (F.fin 0) (F.fin 10) = some rec' ∧
      F.le rec'.t (F.fin 4) = true :=
  C1_bvh_hit_implies_hit_list_hit
    [Hittable.sphere ⟨⟨F.fin 0, F.fin 0, F.fin (-5)⟩, F.fin 1, exMat⟩]
    axisZero (F.fin 0) (F.fin 1)
    (mkBVHNode (F.fin 0) (F.fin 1)
      (Hittable.sphere ⟨⟨F.fin 0, F.fin 0, F.fin (-5)⟩, F.fin 1, exMat⟩)
      (Hittable.sphere ⟨⟨F.fin 0, F.fin 0, F.fin (-5)⟩, F.fin 1, exMat⟩))
    ⟨⟨F.fin 0, F.fin 0, F.fin 0⟩, ⟨F.fin 0, F.fin 0, F.fin (-1)⟩, F.fin 0⟩
    (F.fin 0) (F.fin 10)
    ⟨⟨F.fin 0, F.fin 0, F.fin (-4)⟩, ⟨F.fin 0, F.fin 0, F.fin 1⟩, F.fin 4, true, exMat⟩
    (by decide) (by decide) (by decide) (by decide)
    (by simp [bvhNew, new_helper]) (by decide)

/-- Counterexample to C1 as stated: a sphere of radius 1 at `(0,0,-5)`,
the ray from the origin along `-z`, interval `[0, 4]`.  The linear scan
reports the hit at exactly `t = 4` (the range test accepts `root = t_max`),
but the BVH's slab test rejects the node box because the box is entered at
exactly `t = 4` and the shrunken interval `[4, 4]` is judged empty
(`t_max' <= t_min'`), so traversal reports no hit.  All arithmetic here is
exact in `f32`. -/
theorem C1_counterexample :
    Option.map
        (fun T => T.hit ⟨⟨F.fin 0, F.fin 0, F.fin 0⟩, ⟨F.fin 0, F.fin 0, F.fin (-1)⟩, F.fin 0⟩
          (F.fin 0) (F.fin 4))
        (bvhNew [Hittable.sphere ⟨⟨F.fin 0, F.fin 0, F.fin (-5)⟩, F.fin 1, exMat⟩]
          axisZero (F.fin 0) (F.fin 1)) = some none ∧
    Option.map HitRecord.t
        (hit_list [Hittable.sphere ⟨⟨F.fin 0, F.fin 0, F.fin (-5)⟩, F.fin 1, exMat⟩]
          ⟨⟨F.fin 0, F.fin 0, F.fin 0⟩, ⟨F.fin 0, F.fin 0, F.fin (-1)⟩, F.fin 0⟩
          (F.fin 0) (F.fin 4)) = some (F.fin 4) := by
  constructor
  · rw [show bvhNew [Hittable.sphere ⟨⟨F.fin 0, F.fin 0, F.fin (-5)⟩, F.fin 1, exMat⟩]
        axisZero (F.fin 0) (F.fin 1) =
        some (mkBVHNode (F.fin 0) (F.fin 1)
          (Hittable.sphere ⟨⟨F.fin 0, F.fin 0, F.fin (-5)⟩, F.fin 1, exMat⟩)
          (Hittable.sphere ⟨⟨F.fin 0, F.fin 0, F.fin (-5)⟩, F.fin 1, exMat⟩))
      from by simp [bvhNew, new_helper]]
    decide
  · decide

theorem F.fmin_nan_right : ∀ x : F, F.fmin x F.nan = x := by
  intro x
  cases x <;> rfl

theorem F.fmax_nan_right : ∀ x : F, F.fmax x F.nan = x := by
  intro x
  cases x <;> rfl

theorem F.fmin_eq_ite {x y : F} (hx : x ≠ F.nan) (hy : y ≠ F.nan) :
    F.fmin x y = if F.le x y = true then x else y := by
  cases x <;> cases y <;> first | rfl | simp_all

theorem F.fmax_eq_ite {x y : F} (hx : x ≠ F.nan) (hy : y ≠ F.nan) :
    F.fmax x y = if F.le x y = true then y else x := by
  cases x <;> cases y <;> first | rfl | simp_all

theorem F.fmin_ne_nan {x y : F} (hx : x ≠ F.nan) (hy : y ≠ F.nan) :
    F.fmin x y ≠ F.nan := by
  rw [F.fmin_eq_ite hx hy]
  split_ifs <;> assumption

theorem F.fmax_ne_nan {x y : F} (hx : x ≠ F.nan) (hy : y ≠ F.nan) :
    F.fmax x y ≠ F.nan := by
  rw [F.fmax_eq_ite hx hy]
  split_ifs <;> assumption

theorem F.le_total' {x y : F} (hx : x ≠ F.nan) (hy : y ≠ F.nan) :
    F.le x y = true ∨ F.le y x = true := by
  cases x <;> cases y <;> simp_all [F.le]
  exact le_total _ _

theorem F.le_antisymm' {x y : F} (h1 : F.le x y = true) (h2 : F.le y x = true) :
    x = y := by
  cases x <;> cases y <;> simp_all [F.le]
  exact le_antisymm h1 h2

theorem F.fmin_comm (a b : F) : F.fmin a b = F.fmin b a := by
  rcases eq_or_ne a F.nan with rfl | ha
  · rw [F.fmin_nan_right]
    rfl
  rcases eq_or_ne b F.nan with rfl | hb
  · rw [F.fmin_nan_right]
    rfl
  rw [F.fmin_eq_ite ha hb, F.fmin_eq_ite hb ha]
  split_ifs
  · exact F.le_antisymm' ‹F.le a b = true› ‹F.le b a = true›
  · rfl
  · rfl
  · exact absurd ((F.le_total' ha hb).resolve_left ‹¬F.le a b = true›)
      ‹¬F.le b a = true›

theorem F.fmax_comm (a b : F) : F.fmax a b = F.fmax b a := by
  rcases eq_or_ne a F.nan with rfl | ha
  · rw [F.fmax_nan_right]
    rfl
  rcases eq_or_ne b F.nan with rfl | hb
  · rw [F.fmax_nan_right]
    rfl
  rw [F.fmax_eq_ite ha hb, F.fmax_eq_ite hb ha]
  split_ifs
  · exact F.le_antisymm' ‹F.le b a = true› ‹F.le a b = true›
  · rfl
  · rfl
  · exact absurd ((F.le_total' ha hb).resolve_left ‹¬F.le a b = true›)
      ‹¬F.le b a = true›

theorem F.fmin_assoc (a b c : F) :
    F.fmin (F.fmin a b) c = F.fmin a (F.fmin b c) := by
  rcases eq_or_ne a F.nan with rfl | ha
  · rfl
  rcases eq_or_ne b F.nan with rfl | hb
  · rw [F.fmin_nan_right]
    rfl
  rcases eq_or_ne c F.nan with rfl | hc
  · rw [F.fmin_nan_right, F.fmin_nan_right]
  have hab := F.fmin_ne_nan ha hb
  have hbc := F.fmin_ne_nan hb hc
  rw [F.fmin_eq_ite hab hc, F.fmin_eq_ite ha hbc,
    F.fmin_eq_ite ha hb, F.fmin_eq_ite hb hc]
  split_ifs <;>
    first
    | rfl
    | (exact absurd (F.le_trans' ‹F.le a b = true› ‹F.le b c = true›)
        ‹¬F.le a c = true›)
    | (exact F.le_antisymm'
        (F.le_trans' ((F.le_total' hb hc).resolve_left ‹¬F.le b c = true›)
          ((F.le_total' ha hb).resolve_left ‹¬F.le a b = true›))
        ‹F.le a c = true›)

theorem F.fmax_assoc (a b c : F) :
    F.fmax (F.fmax a b) c = F.fmax a (F.fmax b c) := by
  rcases eq_or_ne a F.nan with rfl | ha
  · rfl
  rcases eq_or_ne b F.nan with rfl | hb
  · rw [F.fmax_nan_right]
    rfl
  rcases eq_or_ne c F.nan with rfl | hc
  · rw [F.fmax_nan_right, F.fmax_nan_right]
  have hab := F.fmax_ne_nan ha hb
  have hbc := F.fmax_ne_nan hb hc
  rw [F.fmax_eq_ite hab hc, F.fmax_eq_ite ha hbc,
    F.fmax_eq_ite ha hb, F.fmax_eq_ite hb hc]
  split_ifs <;>
    first
    | rfl
    | (exact absurd (F.le_trans' ‹F.le a b = true› ‹F.le b c = true›)
        ‹¬F.le a c = true›)
    | (exact F.le_antisymm'
        (F.le_trans' ((F.le_total' hb hc).resolve_left ‹¬F.le b c = true›)
          ((F.le_total' ha hb).resolve_left ‹¬F.le a b = true›))
        ‹F.le a c = true›)


/-- C9: `AABB::surrounding_box` is commutative and associative (also in the
presence of the IEEE special values, since Rust's NaN-ignoring `f32::min`
and `f32::max` are themselves commutative and associative and the model has
no negative zero). -/
theorem C9_surrounding_box_comm_assoc :
    (∀ a b : AABB, AABB.surrounding_box a b = AABB.surrounding_box b a) ∧
    (∀ a b c : AABB,
      AABB.surrounding_box (AABB.surrounding_box a b) c =
        AABB.surrounding_box a (AABB.surrounding_box b c)) := by
  constructor
  · intro a b
    simp [AABB.surrounding_box, F.fmin_comm, F.fmax_comm]
  · intro a b c
    simp [AABB.surrounding_box, F.fmin_assoc, F.fmax_assoc]

/-- C10: whenever any material's `scatter` returns a scattered ray, that
ray's origin is the hit point `rec.p` and its time is the incoming ray's
time, for every variant and every random draw. -/
theorem C10_scatter_preserves_origin_and_time
    (m : Material) (ray : Ray) (rec' : HitRecord) (rnd : Rand)
    (s : Ray) (att : Vec3)
    (h : m.scatter ray rec' rnd = (some s, att)) :
    s.orig = rec'.p ∧ s.time = ray.time := by
  cases m with
  | lambertian albedo =>
      simp only [Material.scatter, lambertianScatter, Prod.mk.injEq,
        Option.some.injEq] at h
      obtain ⟨rfl, -⟩ := h
      exact ⟨rfl, rfl⟩
  | metal albedo fuzz =>
      simp only [Material.scatter, metalScatter] at h
      split_ifs at h with hc
      · simp only [Prod.mk.injEq, Option.some.injEq] at h
        obtain ⟨rfl, -⟩ := h
        exact ⟨rfl, rfl⟩
      · simp at h
  | dialectric ior =>
      simp only [Material.scatter, dialectricScatter, Prod.mk.injEq,
        Option.some.injEq] at h
      obtain ⟨rfl, -⟩ := h
      exact ⟨rfl, rfl⟩

/-- Witness for C10: a Lambertian bounce at hit point `(1,2,3)` of a ray
with time 5 scatters from `(1,2,3)` at time 5. -/
theorem C10_scatter_preserves_origin_and_time_witness :
    (⟨⟨F.fin 1, F.fin 2, F.fin 3⟩, ⟨F.fin 0, F.fin 0, F.fin 2⟩, F.fin 5⟩ : Ray).orig =
      (⟨⟨F.fin 1, F.fin 2, F.fin 3⟩, ⟨F.fin 0, F.fin 0, F.fin 1⟩, F.fin 0, true, exMat⟩ :
        HitRecord).p ∧
    (⟨⟨F.fin 1, F.fin 2, F.fin 3⟩, ⟨F.fin 0, F.fin 0, F.fin 2⟩, F.fin 5⟩ : Ray).time =
      (⟨⟨F.fin 7, F.fin 7, F.fin 7⟩, ⟨F.fin 0, F.fin 1, F.fin 0⟩, F.fin 5⟩ : Ray).time :=
  C10_scatter_preserves_origin_and_time
    (Material.lambertian ⟨F.fin 1, F.fin 0, F.fin 0⟩)
    ⟨⟨F.fin 7, F.fin 7, F.fin 7⟩, ⟨F.fin 0, F.fin 1, F.fin 0⟩, F.fin 5⟩
    ⟨⟨F.fin 1, F.fin 2, F.fin 3⟩, ⟨F.fin 0, F.fin 0, F.fin 1⟩, F.fin 0, true, exMat⟩
    ⟨⟨F.fin 0, F.fin 0, F.fin 1⟩, ⟨F.fin 0, F.fin 0, F.fin 0⟩, F.fin 0⟩
    ⟨⟨F.fin 1, F.fin 2, F.fin 3⟩, ⟨F.fin 0, F.fin 0, F.fin 2⟩, F.fin 5⟩
    ⟨F.fin 1, F.fin 0, F.fin 0⟩
    (by decide)

/-- C6 (amended): `Metal::scatter` returns `None` exactly when the
fuzz-perturbed reflected direction FAILS the test `dot > 0` — which
coincides with `dot ≤ 0` whenever the dot product is a number, but also
absorbs when the dot product is NaN; the attenuation is the albedo in
both the absorbed and scattered cases. -/
theorem C6_metal_absorb_iff_not_dot_pos (albedo : Vec3) (fuzz : F) (ray : Ray)
    (rec' : HitRecord) (rnd : Rand) :
    ((metalScatter albedo fuzz ray rec' rnd).1 = none ↔
      F.lt (F.fin 0)
        (Vec3.dot
          (Vec3.addv (Vec3.reflect (Vec3.unit_vector ray.dir) rec'.normal)
            (Vec3.smul fuzz rnd.rius)) rec'.normal) = false) ∧
    (metalScatter albedo fuzz ray rec' rnd).2 = albedo := by
  unfold metalScatter
  constructor <;>
  · cases h : F.lt (F.fin 0)
        (Vec3.dot
          (Vec3.addv (Vec3.reflect (Vec3.unit_vector ray.dir) rec'.normal)
            (Vec3.smul fuzz rnd.rius)) rec'.normal) <;>
      simp [h]

/-- Counterexample to C6 as stated: for the degenerate ray with direction
`(0,0,0)` the reflected direction is NaN (from `0/0` in `unit_vector`), so
the scatter test's dot product is NaN: the code absorbs the ray (returns
`None`), yet `dot ≤ 0` is FALSE for NaN, contradicting the claimed
"returns None exactly when dot ≤ 0". -/
theorem C6_counterexample :
    (metalScatter ⟨F.fin 1, F.fin 0, F.fin 0⟩ (F.fin 0)
      ⟨⟨F.fin 0, F.fin 0, F.fin 0⟩, ⟨F.fin 0, F.fin 0, F.fin 0⟩, F.fin 0⟩
      ⟨⟨F.fin 0, F.fin 0, F.fin 0⟩, ⟨F.fin 0, F.fin 0, F.fin 1⟩, F.fin 0, true, exMat⟩
      ⟨⟨F.fin 0, F.fin 0, F.fin 0⟩, ⟨F.fin 0, F.fin 0, F.fin 0⟩, F.fin 0⟩).1 = none ∧
    F.le
      (Vec3.dot
        (Vec3.addv
          (Vec3.reflect
            (Vec3.unit_vector ⟨F.fin 0, F.fin 0, F.fin 0⟩)
            ⟨F.fin 0, F.fin 0, F.fin 1⟩)
          (Vec3.smul (F.fin 0) ⟨F.fin 0, F.fin 0, F.fin 0⟩))
        ⟨F.fin 0, F.fin 0, F.fin 1⟩)
      (F.fin 0) = false := by
  decide


/-- C5: `ray_color` at `depth ≤ 0` is black for every scene, ray and
randomness, and at `depth > 0` it satisfies exactly one unfolding equation
whose only self-reference passes `depth - 1` — the depth parameter is the
recursion's sole termination mechanism (the equation has no other
early exit on bounce count). -/
theorem C5_ray_color_depth_termination :
    (∀ (r : Ray) (hittables : List Hittable) (rnds : ℕ → Rand) (depth : ℤ),
      depth ≤ 0 → ray_color r hittables rnds depth = Vec3.zero) ∧
    (∀ (r : Ray) (hittables : List Hittable) (rnds : ℕ → Rand) (depth : ℤ),
      0 < depth →
      ray_color r hittables rnds depth =
        match hit_list hittables r (F.fin (1 / 1000)) F.pinf with
        | some rec' =>
            match rec'.material.scatter r rec' (rnds depth.toNat) with
            | (some scattered_ray, attenuation) =>
                Vec3.mulv attenuation
                  (ray_color scattered_ray hittables rnds (depth - 1))
            | (none, _) => Vec3.zero
        | none =>
            let unit_direction := Vec3.unit_vector r.dir
            let t := F.mul (F.fin (1 / 2)) (F.add unit_direction.y (F.fin 1))
            Vec3.addv (Vec3.smul (F.sub (F.fin 1) t) ⟨F.fin 1, F.fin 1, F.fin 1⟩)
              (Vec3.smul t ⟨F.fin (1 / 2), F.fin (7 / 10), F.fin 1⟩)) := by
  constructor
  · intro r hittables rnds depth h
    rw [ray_color]
    simp [h]
  · intro r hittables rnds depth h
    rw [ray_color]
    simp [not_le.mpr h]

/-- C3 (the code at the failing input): a dielectric with
`ior = 25/12`, hit from inside (`front_face = false`, normal `(0,0,1)`)
by the ray with direction `(3,0,-4)` (unit direction `(3/5,0,-4/5)`,
`cos θ = 4/5`, `sin θ = 3/5`, `ratio·sin θ = 5/4 > 1`, so total internal
reflection is forced, deterministically).  The claim (and the spec) say
the scattered direction is the reflection `(3/5,0,4/5)`; the code
refracts the chosen direction a second time and actually scatters along
`(5/4,0,-3/4)`.  Attenuation is `(1,1,1)` as claimed. -/
theorem C3_double_refraction_bug :
    F.lt (F.fin 1)
      (F.mul (F.fin (25/12))
        (F.sqrt (F.sub (F.fin 1) (F.mul (F.fin (4/5)) (F.fin (4/5)))))) = true ∧
    Vec3.reflect (Vec3.unit_vector ⟨F.fin 3, F.fin 0, F.fin (-4)⟩)
      ⟨F.fin 0, F.fin 0, F.fin 1⟩ = ⟨F.fin (3/5), F.fin 0, F.fin (4/5)⟩ ∧
    (dialectricScatter (F.fin (25/12))
      ⟨⟨F.fin 0, F.fin 0, F.fin 0⟩, ⟨F.fin 3, F.fin 0, F.fin (-4)⟩, F.fin 0⟩
      ⟨⟨F.fin 0, F.fin 0, F.fin 0⟩, ⟨F.fin 0, F.fin 0, F.fin 1⟩, F.fin 0, false,
        Material.dialectric (F.fin (25/12))⟩
      ⟨⟨F.fin 0, F.fin 0, F.fin 0⟩, ⟨F.fin 0, F.fin 0, F.fin 0⟩, F.fin 0⟩) =
      (some ⟨⟨F.fin 0, F.fin 0, F.fin 0⟩, ⟨F.fin (5/4), F.fin 0, F.fin (-3/4)⟩, F.fin 0⟩,
        ⟨F.fin 1, F.fin 1, F.fin 1⟩) ∧
    (⟨F.fin (5/4), F.fin 0, F.fin (-3/4)⟩ : Vec3) ≠
      ⟨F.fin (3/5), F.fin 0, F.fin (4/5)⟩ := by
  decide

/-- C2 (the code at the failing input): building the BVH over the three
spheres centered `(5,5,5)`, `(1,1,1)`, `(3,3,3)` (already violating sorted
order) splits the UNSORTED list at the midpoint: the left child holds the
sphere at 5 while the right child holds the sphere at 1, so a right-child
primitive has a strictly smaller axis-0 bounding-box minimum than a
left-child primitive.  The local sort in the Rust source is applied to a
discarded clone, so the recursion sees the original order. -/
theorem C2_sort_discarded_bug :
    Option.map
      (fun T => match T with
        | Hittable.bvhNode left right _ =>
            (leavesOf left).any fun p =>
              (leavesOf right).any fun p' =>
                F.lt ((unwrapBox (p'.bounding_box (F.fin 0) (F.fin 0))).minimum.idx 0)
                  ((unwrapBox (p.bounding_box (F.fin 0) (F.fin 0))).minimum.idx 0)
        | _ => false)
      (new_helper
        [Hittable.sphere ⟨⟨F.fin 5, F.fin 5, F.fin 5⟩, F.fin (1/2), exMat⟩,
         Hittable.sphere ⟨⟨F.fin 1, F.fin 1, F.fin 1⟩, F.fin (1/2), exMat⟩,
         Hittable.sphere ⟨⟨F.fin 3, F.fin 3, F.fin 3⟩, F.fin (1/2), exMat⟩]
        0 3 axisZero (F.fin 0) (F.fin 0)) = some true := by
  rw [show new_helper
        [Hittable.sphere ⟨⟨F.fin 5, F.fin 5, F.fin 5⟩, F.fin (1/2), exMat⟩,
         Hittable.sphere ⟨⟨F.fin 1, F.fin 1, F.fin 1⟩, F.fin (1/2), exMat⟩,
         Hittable.sphere ⟨⟨F.fin 3, F.fin 3, F.fin 3⟩, F.fin (1/2), exMat⟩]
        0 3 axisZero (F.fin 0) (F.fin 0) =
      some (mkBVHNode (F.fin 0) (F.fin 0)
        (mkBVHNode (F.fin 0) (F.fin 0)
          (Hittable.sphere ⟨⟨F.fin 5, F.fin 5, F.fin 5⟩, F.fin (1/2), exMat⟩)
          (Hittable.sphere ⟨⟨F.fin 5, F.fin 5, F.fin 5⟩, F.fin (1/2), exMat⟩))
        (mkBVHNode (F.fin 0) (F.fin 0)
          (Hittable.sphere ⟨⟨F.fin 3, F.fin 3, F.fin 3⟩, F.fin (1/2), exMat⟩)
          (Hittable.sphere ⟨⟨F.fin 1, F.fin 1, F.fin 1⟩, F.fin (1/2), exMat⟩)))
    from by simp +decide [new_helper]]
  decide

/-- C7: on finite data with a nonzero ray direction, `Sphere::hit` either
misses for every window, or yields two roots `ρ1 ≤ ρ2` and returns the
record at the smaller root when it passes the `[t_min, t_max]` range test,
else the record at the larger root when that passes, else no hit; and in
the concrete scenario (radius 1/2 sphere at `(0,0,-1)`, ray from the
origin toward `(0,0,-1)`, window `[0.001, +∞)`) it reports the hit at
`t = 1/2` with normal `(0,0,1)` and `front_face = true`. -/
theorem C7_sphere_nearest_root_and_scenario :
    (∀ (s : Sphere) (r : Ray), s.center.finite = true → s.radius.isFinite = true →
      r.orig.finite = true → r.dir.finite = true → r.dir ≠ Vec3.zero →
      (∀ t_min t_max, s.hit r t_min t_max = none) ∨
      (∃ ρ1 ρ2 : ℚ, ρ1 ≤ ρ2 ∧ ∀ t_min t_max,
        s.hit r t_min t_max =
          if (F.lt (F.fin ρ1) t_min || F.lt t_max (F.fin ρ1)) = false
          then some (sphereRec s.center s.radius s.material r (F.fin ρ1))
          else if (F.lt (F.fin ρ2) t_min || F.lt t_max (F.fin ρ2)) = false
          then some (sphereRec s.center s.radius s.material r (F.fin ρ2))
          else none)) ∧
    Sphere.hit ⟨⟨F.fin 0, F.fin 0, F.fin (-1)⟩, F.fin (1/2), exMat⟩
      ⟨⟨F.fin 0, F.fin 0, F.fin 0⟩, ⟨F.fin 0, F.fin 0, F.fin (-1)⟩, F.fin 0⟩
      (F.fin (1/1000)) F.pinf =
      some ⟨⟨F.fin 0, F.fin 0, F.fin (-1/2)⟩, ⟨F.fin 0, F.fin 0, F.fin 1⟩,
        F.fin (1/2), true, exMat⟩ := by
  constructor
  · intro s r hc hrad ho hd hnz
    exact sphereHitAt_char s.center s.radius s.material r hc hrad ho hd hnz
  · decide


theorem F.mul_neg_right (a b : F) : F.mul a (F.neg b) = F.neg (F.mul a b) := by
  cases a <;> cases b <;>
    simp only [F.mul, F.neg] <;>
    first
    | rfl
    | (exact congrArg F.fin (by ring))
    | (split_ifs <;> first | rfl | (exfalso; linarith))

theorem F.add_neg_neg (a b : F) :
    F.add (F.neg a) (F.neg b) = F.neg (F.add a b) := by
  cases a <;> cases b <;>
    first
    | rfl
    | (exact congrArg F.fin (by ring))

theorem Vec3.dot_negv (u v : Vec3) :
    Vec3.dot u (Vec3.negv v) = F.neg (Vec3.dot u v) := by
  simp [Vec3.dot, Vec3.negv, F.mul_neg_right, F.add_neg_neg]

theorem Vec3.subv_finite {u v : Vec3} (hu : u.finite = true) (hv : v.finite = true) :
    (Vec3.subv u v).finite = true := by
  obtain ⟨a, b, c, rfl⟩ := Vec3.finite_elim hu
  obtain ⟨d, e, f, rfl⟩ := Vec3.finite_elim hv
  rfl

theorem Vec3.at_finite {r : Ray} (ho : r.orig.finite = true)
    (hd : r.dir.finite = true) (ρ : ℚ) : (r.at' (F.fin ρ)).finite = true := by
  rcases r with ⟨orig, dir, t⟩
  obtain ⟨a, b, c, rfl⟩ := Vec3.finite_elim ho
  obtain ⟨d, e, f, rfl⟩ := Vec3.finite_elim hd
  rfl

theorem Vec3.divs_finite {v : Vec3} {t : ℚ} (hv : v.finite = true) (ht : t ≠ 0) :
    (Vec3.divs v (F.fin t)).finite = true := by
  obtain ⟨a, b, c, rfl⟩ := Vec3.finite_elim hv
  simp only [Vec3.divs, F.fin_div_fin _ _ ht]
  rfl

theorem Vec3.dot_finite {u v : Vec3} (hu : u.finite = true) (hv : v.finite = true) :
    (Vec3.dot u v).isFinite = true := by
  obtain ⟨a, b, c, rfl⟩ := Vec3.finite_elim hu
  obtain ⟨d, e, f, rfl⟩ := Vec3.finite_elim hv
  rfl

/-- The record built by the sphere intersection at a finite root on finite
data with nonzero radius: its normal opposes the incoming ray and its
`front_face` flag is exactly the sign test on the outward normal. -/
theorem sphereRec_orientation (center : Vec3) (radius : F) (material : Material)
    (r : Ray) (ρ : ℚ) (hc : center.finite = true) (hrad : radius.isFinite = true)
    (hrne : radius ≠ F.fin 0) (ho : r.orig.finite = true) (hd : r.dir.finite = true) :
    F.le (Vec3.dot r.dir (sphereRec center radius material r (F.fin ρ)).normal)
      (F.fin 0) = true ∧
    ((sphereRec center radius material r (F.fin ρ)).front_face = true ↔
      F.lt (Vec3.dot r.dir
        (Vec3.divs (Vec3.subv (r.at' (F.fin ρ)) center) radius)) (F.fin 0) = true) := by
  obtain ⟨rq, rfl⟩ := F.isFinite_elim hrad
  have hrq : rq ≠ 0 := fun h => hrne (by rw [h])
  have houtfin : (Vec3.divs (Vec3.subv (r.at' (F.fin ρ)) center) (F.fin rq)).finite = true :=
    Vec3.divs_finite (Vec3.subv_finite (Vec3.at_finite ho hd ρ) hc) hrq
  obtain ⟨dv, hdv⟩ := F.isFinite_elim (Vec3.dot_finite hd houtfin)
  constructor
  · cases hff : F.lt (Vec3.dot r.dir
        (Vec3.divs (Vec3.subv (r.at' (F.fin ρ)) center) (F.fin rq))) (F.fin 0) with
    | true =>
        have hdlt : dv < 0 := by
          rw [hdv] at hff
          simpa [F.lt_fin_fin] using hff
        simp only [sphereRec, hff, if_true]
        rw [hdv, F.le_fin_fin]
        simpa using le_of_lt hdlt
    | false =>
        have hdge : ¬dv < 0 := by
          rw [hdv] at hff
          simpa [F.lt_fin_fin] using hff
        simp only [sphereRec, hff, Bool.false_eq_true, if_false]
        rw [Vec3.dot_negv, hdv]
        simp only [F.neg, F.le_fin_fin]
        simpa using by linarith
  · simp only [sphereRec]

/-- C4 (amended): for every hit reported by `Sphere::hit` or
`MovingSphere::hit` on finite sphere data with nonzero radius, queried
with a finite ray whose direction is not the zero vector, the returned
normal opposes the ray (`dot(dir, normal) ≤ 0`) and `front_face` holds
exactly when `dot(dir, outward_normal) < 0`.  (Without those conditions
the claim fails: see the counterexample, where a zero-direction ray
produces an accepted hit with a NaN normal.) -/
theorem C4_normal_opposes_ray :
    (∀ (s : Sphere) (r : Ray) (t_min t_max : F) (rec : HitRecord),
      s.center.finite = true → s.radius.isFinite = true → s.radius ≠ F.fin 0 →
      RayOk r → Sphere.hit s r t_min t_max = some rec →
      F.le (Vec3.dot r.dir rec.normal) (F.fin 0) = true ∧
      (rec.front_face = true ↔
        F.lt (Vec3.dot r.dir
          (Vec3.divs (Vec3.subv (r.at' rec.t) s.center) s.radius)) (F.fin 0) = true)) ∧
    (∀ (s : MovingSphere) (r : Ray) (t_min t_max : F) (rec : HitRecord),
      s.center0.finite = true → s.center1.finite = true →
      s.time0.isFinite = true → s.time1.isFinite = true → s.time0 ≠ s.time1 →
      s.radius.isFinite = true → s.radius ≠ F.fin 0 →
      RayOk r → MovingSphere.hit s r t_min t_max = some rec →
      F.le (Vec3.dot r.dir rec.normal) (F.fin 0) = true ∧
      (rec.front_face = true ↔
        F.lt (Vec3.dot r.dir
          (Vec3.divs (Vec3.subv (r.at' rec.t) (s.center r.time)) s.radius))
          (F.fin 0) = true)) := by
  constructor
  · intro s r t_min t_max rec hc hrad hrne hr hh
    obtain ⟨ho, hd, ht, hnz⟩ := hr
    rcases sphereHitAt_char s.center s.radius s.material r hc hrad ho hd hnz with
      hn | ⟨ρ1, ρ2, h12, heq⟩
    · unfold Sphere.hit at hh
      rw [hn t_min t_max] at hh
      exact Option.noConfusion hh
    · unfold Sphere.hit at hh
      rw [heq t_min t_max] at hh
      split_ifs at hh with c1 c2
      · obtain rfl : sphereRec s.center s.radius s.material r (F.fin ρ1) = rec := by
          injection hh
        exact sphereRec_orientation s.center s.radius s.material r ρ1 hc hrad hrne ho hd
      · obtain rfl : sphereRec s.center s.radius s.material r (F.fin ρ2) = rec := by
          injection hh
        exact sphereRec_orientation s.center s.radius s.material r ρ2 hc hrad hrne ho hd
  · intro s r t_min t_max rec hc0 hc1 ht0 ht1 hne hrad hrne hr hh
    obtain ⟨ho, hd, ht, hnz⟩ := hr
    have hc := s.center_finite r.time hc0 hc1 ht0 ht1 hne ht
    rcases sphereHitAt_char (s.center r.time) s.radius s.material r hc hrad ho hd hnz with
      hn | ⟨ρ1, ρ2, h12, heq⟩
    · unfold MovingSphere.hit at hh
      rw [hn t_min t_max] at hh
      exact Option.noConfusion hh
    · unfold MovingSphere.hit at hh
      rw [heq t_min t_max] at hh
      split_ifs at hh with c1 c2
      · obtain rfl : sphereRec (s.center r.time) s.radius s.material r (F.fin ρ1) = rec := by
          injection hh
        exact sphereRec_orientation (s.center r.time) s.radius s.material r ρ1 hc hrad hrne ho hd
      · obtain rfl : sphereRec (s.center r.time) s.radius s.material r (F.fin ρ2) = rec := by
          injection hh
        exact sphereRec_orientation (s.center r.time) s.radius s.material r ρ2 hc hrad hrne ho hd

/-- Counterexample to C4 as stated: `Sphere::hit` on a valid sphere with
the degenerate ray whose direction is `(0,0,0)` accepts a hit with
`t = NaN` (the quadratic degenerates to `0/0` and the range checks are
both false for NaN), so the returned normal is NaN and
`dot(dir, normal) ≤ 0` is FALSE. -/
theorem C4_counterexample :
    Sphere.hit ⟨⟨F.fin 0, F.fin 0, F.fin (-1)⟩, F.fin (1/2), exMat⟩
      ⟨⟨F.fin 0, F.fin 0, F.fin 0⟩, ⟨F.fin 0, F.fin 0, F.fin 0⟩, F.fin 0⟩
      (F.fin 0) (F.fin 1) =
      some ⟨⟨F.nan, F.nan, F.nan⟩, ⟨F.nan, F.nan, F.nan⟩, F.nan, false, exMat⟩ ∧
    F.le (Vec3.dot ⟨F.fin 0, F.fin 0, F.fin 0⟩ ⟨F.nan, F.nan, F.nan⟩)
      (F.fin 0) = false := by
  decide



theorem F.lt_ninf_right : ∀ x : F, F.lt x F.ninf = false := by
  intro x
  cases x <;> rfl

theorem F.lt_nan_right : ∀ x : F, F.lt x F.nan = false := by
  intro x
  cases x <;> rfl

theorem F.pinf_lt_any : ∀ x : F, F.lt F.pinf x = false := by
  intro x
  cases x <;> rfl

theorem F.nan_lt_any : ∀ x : F, F.lt F.nan x = false := by
  intro x
  rfl

/-- An interval spanning zero is never judged empty: if `a < 0 < b` then
`b ≤ a` is false. -/
theorem F.le_span_false {a b : F} (ha : F.lt a (F.fin 0) = true)
    (hb : F.lt (F.fin 0) b = true) : F.le b a = false := by
  cases a <;> cases b <;> simp_all [F.lt, F.le]
  linarith

theorem F.lt_zero_ite {c : Prop} [Decidable c] {x y : F}
    (hx : F.lt x (F.fin 0) = true) (hy : F.lt y (F.fin 0) = true) :
    F.lt (if c then x else y) (F.fin 0) = true := by
  split_ifs <;> assumption

theorem F.zero_lt_ite {c : Prop} [Decidable c] {x y : F}
    (hx : F.lt (F.fin 0) x = true) (hy : F.lt (F.fin 0) y = true) :
    F.lt (F.fin 0) (if c then x else y) = true := by
  split_ifs <;> assumption

/-- One slab iteration of `AABB::hit` accepts whenever the origin lies
strictly inside the slab, the window spans 0, and the direction component
is not an infinity (it may be any finite value, including `0`, whose
reciprocal is `+inf`, or NaN). -/
theorem axisHit_inside (bmin bmax orig dir : Vec3) (ttime : F)
    (t_min t_max : F) (a : Fin 3) (bm o bM : ℚ)
    (e1 : bmin.idx a = F.fin bm) (e2 : orig.idx a = F.fin o)
    (e3 : bmax.idx a = F.fin bM)
    (hlt1 : bm < o) (hlt2 : o < bM)
    (hd1 : dir.idx a ≠ F.pinf) (hd2 : dir.idx a ≠ F.ninf)
    (htm : F.lt t_min (F.fin 0) = true) (htx : F.lt (F.fin 0) t_max = true) :
    AABB.axisHit ⟨bmin, bmax⟩ ⟨orig, dir, ttime⟩ t_min t_max a = true := by
  have hspan : ∀ u v : F, F.lt u (F.fin 0) = true → F.lt (F.fin 0) v = true →
      (!(F.le (if F.lt v t_max = true then v else t_max)
        (if F.lt t_min u = true then u else t_min))) = true := by
    intro u v hu hv
    have h1 : F.lt (if F.lt t_min u = true then u else t_min) (F.fin 0) = true :=
      F.lt_zero_ite hu htm
    have h2 : F.lt (F.fin 0) (if F.lt v t_max = true then v else t_max) = true :=
      F.zero_lt_ite hv htx
    rw [F.le_span_false h1 h2]
    rfl
  have hnospan : (!(F.le (if F.lt F.pinf t_max = true then F.pinf else t_max)
      (if F.lt t_min F.ninf = true then F.ninf else t_min))) = true := by
    rw [F.pinf_lt_any, F.lt_ninf_right]
    simp only [Bool.false_eq_true, if_false]
    rw [F.le_span_false htm htx]
    rfl
  simp only [AABB.axisHit, e1, e2, e3]
  cases hdir : dir.idx a with
  | pinf => exact absurd hdir hd1
  | ninf => exact absurd hdir hd2
  | nan =>
      have hinv : F.div (F.fin 1) F.nan = F.nan := rfl
      rw [hinv]
      have hs : ∀ q : ℚ, F.mul (F.sub (F.fin q) (F.fin o)) F.nan = F.nan := by
        intro q
        rw [F.fin_sub_fin]
        rfl
      rw [hs, hs, F.nan_lt_any]
      simp only [Bool.false_eq_true, if_false]
      rw [F.lt_nan_right, F.nan_lt_any]
      simp only [Bool.false_eq_true, if_false]
      rw [F.le_span_false htm htx]
      rfl
  | fin q =>
      rcases lt_trichotomy q 0 with hq | hq | hq
      · have hinv : F.div (F.fin 1) (F.fin q) = F.fin (1 / q) :=
          F.fin_div_fin _ _ (ne_of_lt hq)
        have hiq : 1 / q < 0 := one_div_neg.mpr hq
        rw [hinv]
        simp only [F.fin_sub_fin, F.fin_mul_fin, F.lt_fin_fin, decide_eq_true_eq,
          if_pos hiq]
        exact hspan _ _
          (by
            simp only [F.lt_fin_fin, decide_eq_true_eq]
            exact mul_neg_of_pos_of_neg (by linarith) hiq)
          (by
            simp only [F.lt_fin_fin, decide_eq_true_eq]
            exact mul_pos_of_neg_of_neg (by linarith) hiq)
      · subst hq
        have hinv : F.div (F.fin 1) (F.fin 0) = F.pinf := by decide
        rw [hinv]
        simp only [F.fin_sub_fin]
        have hs0 : F.mul (F.fin (bm - o)) F.pinf = F.ninf := by
          simp only [F.mul]
          rw [if_neg (by linarith), if_pos (by linarith)]
        have hs1 : F.mul (F.fin (bM - o)) F.pinf = F.pinf := by
          simp only [F.mul]
          rw [if_pos (by linarith)]
        rw [hs0, hs1, F.pinf_lt_any]
        simp only [Bool.false_eq_true, if_false]
        exact hnospan
      · have hinv : F.div (F.fin 1) (F.fin q) = F.fin (1 / q) :=
          F.fin_div_fin _ _ (ne_of_gt hq)
        have hiq : 0 < 1 / q := one_div_pos.mpr hq
        rw [hinv]
        simp only [F.fin_sub_fin, F.fin_mul_fin, F.lt_fin_fin, decide_eq_true_eq,
          if_neg (not_lt.mpr (le_of_lt hiq))]
        exact hspan _ _
          (by
            simp only [F.lt_fin_fin, decide_eq_true_eq]
            exact mul_neg_of_neg_of_pos (by linarith) hiq)
          (by
            simp only [F.lt_fin_fin, decide_eq_true_eq]
            exact mul_pos (by linarith) hiq)


/-- C8 (amended): an axis-aligned box with `minimum[i] < maximum[i]` on
each axis reports a hit for every ray whose origin lies strictly inside
the box, for every direction none of whose components is an infinity
(zero components, whose reciprocal is `+inf`, and even NaN components are
fine), whenever the query interval satisfies `t_min < 0 < t_max`.
(The original claim's "any direction" fails for a direction with an
infinite component: see the counterexample.) -/
theorem C8_origin_inside_hit (am aM bm bM cm cM ox oy oz : ℚ)
    (dir : Vec3) (ttime t_min t_max : F)
    (h1 : am < ox) (h2 : ox < aM) (h3 : bm < oy) (h4 : oy < bM)
    (h5 : cm < oz) (h6 : oz < cM)
    (hdx1 : dir.x ≠ F.pinf) (hdx2 : dir.x ≠ F.ninf)
    (hdy1 : dir.y ≠ F.pinf) (hdy2 : dir.y ≠ F.ninf)
    (hdz1 : dir.z ≠ F.pinf) (hdz2 : dir.z ≠ F.ninf)
    (htm : F.lt t_min (F.fin 0) = true) (htx : F.lt (F.fin 0) t_max = true) :
    AABB.hit ⟨⟨F.fin am, F.fin bm, F.fin cm⟩, ⟨F.fin aM, F.fin bM, F.fin cM⟩⟩
      ⟨⟨F.fin ox, F.fin oy, F.fin oz⟩, dir, ttime⟩ t_min t_max = true := by
  simp only [AABB.hit, Bool.and_eq_true]
  refine ⟨⟨?_, ?_⟩, ?_⟩
  · exact axisHit_inside _ _ _ dir ttime t_min t_max 0 am ox aM rfl rfl rfl
      h1 h2 hdx1 hdx2 htm htx
  · exact axisHit_inside _ _ _ dir ttime t_min t_max 1 bm oy bM rfl rfl rfl
      h3 h4 hdy1 hdy2 htm htx
  · exact axisHit_inside _ _ _ dir ttime t_min t_max 2 cm oz cM rfl rfl rfl
      h5 h6 hdz1 hdz2 htm htx

/-- Witness for C8: the unit box `[-1,1]^3`, the origin ray with the
degenerate direction `(0,0,0)` (every slab reciprocal is `+inf`), window
`(-1, 1)`; the box reports a hit. -/
theorem C8_origin_inside_hit_witness :
    AABB.hit ⟨⟨F.fin (-1), F.fin (-1), F.fin (-1)⟩, ⟨F.fin 1, F.fin 1, F.fin 1⟩⟩
      ⟨⟨F.fin 0, F.fin 0, F.fin 0⟩, ⟨F.fin 0, F.fin 0, F.fin 0⟩, F.fin 0⟩
      (F.fin (-1)) (F.fin 1) = true :=
  C8_origin_inside_hit (-1) 1 (-1) 1 (-1) 1 0 0 0
    ⟨F.fin 0, F.fin 0, F.fin 0⟩ (F.fin 0) (F.fin (-1)) (F.fin 1)
    (by norm_num) (by norm_num) (by norm_num) (by norm_num)
    (by norm_num) (by norm_num)
    (by decide) (by decide) (by decide) (by decide) (by decide) (by decide)
    (by decide) (by decide)

/-- Counterexample to C8 as stated ("any direction"): the unit box
`[-1,1]^3`, origin at the center, direction `(+inf, 0, 0)`, window
`(-1, 1)`.  The reciprocal of `+inf` is `0`, both slab parameters on the
`x` axis collapse to `0`, the shrunken window is `[0, 0]`, and
`t_max_p <= t_min_p` rejects: the box reports NO hit although the origin
is strictly inside it. -/
theorem C8_counterexample :
    AABB.hit ⟨⟨F.fin (-1), F.fin (-1), F.fin (-1)⟩, ⟨F.fin 1, F.fin 1, F.fin 1⟩⟩
      ⟨⟨F.fin 0, F.fin 0, F.fin 0⟩, ⟨F.pinf, F.fin 0, F.fin 0⟩, F.fin 0⟩
      (F.fin (-1)) (F.fin 1) = false := by
  decide

end RT

